import Mathlib

/-!
Verification development for the latex-inliner program (src/latex-inliner.py).

Documents are modelled as `List Char` (the Python code works on `str`).
All definitions below are shallow embeddings of the corresponding Python
functions, translated statement by statement.  Recursions that jump over a
consumed token in the source (`i += k`) are modelled with an explicit `skip`
counter so that every function is structurally recursive and kernel-evaluable.
-/

set_option maxRecDepth 100000

namespace Inliner

/-- Characters that Python's `str.strip`/`\s` treat as whitespace (ASCII). -/
def pyIsSpace (c : Char) : Bool :=
  c = ' ' || c = '\t' || c = '\n' || c = '\r' || c = '\x0b' || c = '\x0c'

/-- Python `str.strip()`. -/
def pyStrip (l : List Char) : List Char :=
  ((l.dropWhile pyIsSpace).reverse.dropWhile pyIsSpace).reverse

/-- A line is blank after trimming (`line.strip() == ''`). -/
def isBlank (l : List Char) : Bool :=
  l.all pyIsSpace

/-- `self.math_environments` from `LatexInliner.__init__`. -/
def math_environments : List (List Char) :=
  ["equation".data, "equation*".data, "align".data, "align*".data, "gather".data,
   "gather*".data, "multline".data, "multline*".data, "flalign".data, "flalign*".data,
   "eqnarray".data, "eqnarray*".data, "split".data, "aligned".data, "gathered".data,
   "cases".data, "matrix".data, "pmatrix".data, "bmatrix".data, "Bmatrix".data,
   "vmatrix".data, "Vmatrix".data, "smallmatrix".data, "subequations".data,
   "math".data, "displaymath".data, "array".data]

/-- `env_name in self.math_environments`. -/
def isMathEnv (nm : List Char) : Bool :=
  math_environments.contains nm

/-- The running state of both math trackers: the three booleans and the
environment stack used by `is_in_math_mode` and `remove_blank_lines_in_math`. -/
structure MathState where
  in_math : Bool
  in_display_math : Bool
  in_double_dollar : Bool
  math_env_stack : List (List Char)
deriving DecidableEq, Repr

def initState : MathState := ⟨false, false, false, []⟩

/-- `in_math or in_display_math or in_double_dollar or bool(math_env_stack)`. -/
def anyMath (s : MathState) : Bool :=
  s.in_math || s.in_display_math || s.in_double_dollar || !s.math_env_stack.isEmpty

/-- The `$$` branch of the scanner (lines 101-109 of the source). -/
def ddToggle (s : MathState) : MathState :=
  if s.in_double_dollar then { s with in_double_dollar := false, in_math := false }
  else { s with in_double_dollar := true, in_math := true }

/-- Splits `NAME}rest` into `(NAME, rest)`; models `re.match` of `([^}]+)\}`
up to the non-emptiness check (made by the callers). -/
def splitAtBrace : List Char → Option (List Char × List Char)
  | [] => none
  | c :: rest =>
    if c = '}' then some ([], rest)
    else match splitAtBrace rest with
      | some (nm, r) => some (c :: nm, r)
      | none => none

/-- The `\begin{NAME}` action (lines 79-87). -/
def beginStep (s : MathState) (nm : List Char) : MathState :=
  if isMathEnv nm then { s with in_math := true, math_env_stack := nm :: s.math_env_stack }
  else s

/-- The `\end{NAME}` action (lines 88-97). -/
def endStep (s : MathState) (nm : List Char) : MathState :=
  match s.math_env_stack with
  | [] => s
  | _ :: tl =>
    if isMathEnv nm then
      if tl.isEmpty && !s.in_display_math && !s.in_double_dollar then
        { s with in_math := false, math_env_stack := tl }
      else { s with math_env_stack := tl }
    else s

def beginKw : List Char := ['b', 'e', 'g', 'i', 'n']
def endKw : List Char := ['e', 'n', 'd']

/-- The character loop of `is_in_math_mode` (lines 56-118).  `skip` counts
characters of an already-consumed token still to step over (`i += k` in the
source); `prev` is the previously scanned character (`text_before[i-1]`). -/
def mathScan (s : MathState) (skip : Nat) (prev : Option Char) : List Char → MathState
  | [] => s
  | c :: rest =>
    match skip with
    | k + 1 => mathScan s k (some c) rest
    | 0 =>
      if c = '\\' then
        match rest with
        | [] => s
        | n :: _ =>
          if n = '[' then
            mathScan { s with in_display_math := true, in_math := true } 1 (some '\\') rest
          else if n = ']' then
            (if s.in_display_math then
              mathScan { s with in_display_math := false, in_math := false } 1 (some '\\') rest
            else mathScan s 0 (some '\\') rest)
          else if n = '(' then
            mathScan { s with in_math := true } 1 (some '\\') rest
          else if n = ')' then
            (if s.in_math && !s.in_display_math && !s.in_double_dollar then
              mathScan { s with in_math := false } 1 (some '\\') rest
            else mathScan s 0 (some '\\') rest)
          else if beginKw.isPrefixOf rest then
            match rest.drop 5 with
            | '{' :: r3 =>
              (match splitAtBrace r3 with
               | some (nm, _) =>
                 if nm.isEmpty then mathScan s 0 (some '\\') rest
                 else mathScan (beginStep s nm) (7 + nm.length) (some '\\') rest
               | none => mathScan s 0 (some '\\') rest)
            | _ => mathScan s 0 (some '\\') rest
          else if endKw.isPrefixOf rest then
            match rest.drop 3 with
            | '{' :: r3 =>
              (match splitAtBrace r3 with
               | some (nm, _) =>
                 if nm.isEmpty then mathScan s 0 (some '\\') rest
                 else mathScan (endStep s nm) (5 + nm.length) (some '\\') rest
               | none => mathScan s 0 (some '\\') rest)
            | _ => mathScan s 0 (some '\\') rest
          else mathScan s 0 (some '\\') rest
      else if c = '$' then
        match rest with
        | '$' :: _ => mathScan (ddToggle s) 1 (some '$') rest
        | _ =>
          if prev = some '\\' then mathScan s 0 (some '$') rest
          else mathScan { s with in_math := !s.in_math } 0 (some '$') rest
      else mathScan s 0 (some c) rest

/-- `is_in_math_mode(text, position)` (lines 43-120): scan `text[:position]`
from a fresh state and return whether any math indicator is active. -/
def is_in_math_mode (text : List Char) (position : Nat) : Bool :=
  anyMath (mathScan initState 0 none (text.take position))

-- sanity checks of the scanner semantics against hand-traces of the source
example : is_in_math_mode "$x$".data 1 = true := by decide
example : is_in_math_mode "$x$".data 3 = false := by decide
example : is_in_math_mode "\\$$".data 3 = true := by decide
example : is_in_math_mode "\\$\\$".data 4 = false := by decide
example : is_in_math_mode "\\begin{align}".data 13 = true := by decide
example : is_in_math_mode "\\begin{align}x\\end{align}".data 25 = false := by decide
example : is_in_math_mode "\\(x\\)".data 6 = false := by decide
example : is_in_math_mode "\\(x".data 3 = true := by decide
example : is_in_math_mode "\\[x\\]".data 5 = false := by decide
example : is_in_math_mode "$$x".data 3 = true := by decide
example : is_in_math_mode "$$x$$".data 5 = false := by decide
example : mathScan initState 0 none "$$\\[\\]".data =
    ⟨false, false, true, []⟩ := by decide

/-! ### Line-level utilities used by `remove_blank_lines_in_math` -/

/-- Python `line.find(pat)`: index of the first occurrence, `none` for `-1`. -/
def findSubAux (pat : List Char) (i : Nat) : List Char → Option Nat
  | [] => if pat.isPrefixOf [] then some i else none
  | c :: rest =>
    if pat.isPrefixOf (c :: rest) then some i else findSubAux pat (i + 1) rest

def findSub (pat l : List Char) : Option Nat := findSubAux pat 0 l

/-- `pat in line` (substring containment). -/
def containsSub (pat l : List Char) : Bool := (findSub pat l).isSome

/-- Python `line.count(pat)`: non-overlapping occurrences, scanning left
to right; `skip` steps over the rest of a counted occurrence. -/
def countSubAux (pat : List Char) (skip : Nat) : List Char → Nat
  | [] => 0
  | c :: rest =>
    match skip with
    | k + 1 => countSubAux pat k rest
    | 0 =>
      if pat.isPrefixOf (c :: rest) then 1 + countSubAux pat (pat.length - 1) rest
      else countSubAux pat 0 rest

def countSub (pat l : List Char) : Nat := countSubAux pat 0 l

/-- `re.finditer(r'\\KW\{([^}]+)\}', line)`: environment names of all
non-overlapping matches, left to right.  `kw` is the literal prefix of the
pattern (`\begin{` or `\end{`); `skip` steps over a completed match. -/
def envMatchesAux (kw : List Char) (skip : Nat) : List Char → List (List Char)
  | [] => []
  | c :: rest =>
    match skip with
    | k + 1 => envMatchesAux kw k rest
    | 0 =>
      if kw.isPrefixOf (c :: rest) then
        match splitAtBrace ((c :: rest).drop kw.length) with
        | some (nm, _) =>
          if nm.isEmpty then envMatchesAux kw 0 rest
          else nm :: envMatchesAux kw (kw.length + nm.length) rest
        | none => envMatchesAux kw 0 rest
      else envMatchesAux kw 0 rest

def envMatches (kw l : List Char) : List (List Char) := envMatchesAux kw 0 l

def beginPat : List Char := ['\\', 'b', 'e', 'g', 'i', 'n', '{']
def endPat : List Char := ['\\', 'e', 'n', 'd', '{']
def openBracketPat : List Char := ['\\', '[']
def closeBracketPat : List Char := ['\\', ']']
def openParenPat : List Char := ['\\', '(']
/-- The literal `'\\\\)'` of line 327/329 of the source: backslash,
backslash, closing parenthesis. -/
def doubleBackParenPat : List Char := ['\\', '\\', ')']
def ddPat : List Char := ['$', '$']
def escDdPat : List Char := ['\\', '$', '\\', '$']
def dollarPat : List Char := ['$']
def escDollarPat : List Char := ['\\', '$']

/-- One iteration of the `while` loop of `remove_blank_lines_in_math`
(lines 288-347): the per-line state update, translated check by check. -/
def lineStep (s : MathState) (line : List Char) : MathState :=
  -- check for display math \[
  let s :=
    if containsSub openBracketPat line then
      match findSub openBracketPat line, findSub closeBracketPat line with
      | some bpos, close =>
        if !s.in_display_math && (close = none ∨ ∃ cp, close = some cp ∧ cp < bpos) then
          { s with in_display_math := true, in_math := true }
        else s
      | none, _ => s
    else s
  -- check for display math \]
  let s :=
    if containsSub closeBracketPat line && s.in_display_math then
      match findSub closeBracketPat line, findSub openBracketPat line with
      | some bpos, opn =>
        if opn = none ∨ ∃ op, opn = some op ∧ bpos > op then
          let s := { s with in_display_math := false }
          if !s.in_double_dollar && s.math_env_stack.isEmpty then
            { s with in_math := false }
          else s
        else s
      | none, _ => s
    else s
  -- check for double dollar math $$
  let s :=
    if (countSub ddPat line : Int) - countSub escDdPat line > 0 then
      if !s.in_double_dollar then
        { s with in_double_dollar := true, in_math := true }
      else
        let s := { s with in_double_dollar := false }
        if !s.in_display_math && s.math_env_stack.isEmpty then
          { s with in_math := false }
        else s
    else s
  -- check for inline math boundaries (single dollars, Python % semantics)
  let s :=
    if ((countSub dollarPat line : Int) - 2 * countSub ddPat line
        - countSub escDollarPat line) % 2 = 1 then
      { s with in_math := !s.in_math }
    else s
  -- check for \( and \)
  let s :=
    if containsSub openParenPat line && !containsSub doubleBackParenPat line then
      { s with in_math := true }
    else s
  let s :=
    if containsSub doubleBackParenPat line && s.in_math && !s.in_display_math
        && !s.in_double_dollar then
      { s with in_math := false }
    else s
  -- check for \begin{..} matches, then \end{..} matches
  let s := (envMatches beginPat line).foldl beginStep s
  let s := (envMatches endPat line).foldl endStep s
  s

/-- The line loop of `remove_blank_lines_in_math`: update state for the line,
then drop it when it is blank and some math mode is active. -/
def stripLines (s : MathState) : List (List Char) → List (List Char)
  | [] => []
  | line :: rest =>
    let s' := lineStep s line
    if anyMath s' && isBlank line then stripLines s' rest
    else line :: stripLines s' rest

/-- Python `content.split('\n')`. -/
def splitNl : List Char → List (List Char)
  | [] => [[]]
  | c :: rest =>
    if c = '\n' then [] :: splitNl rest
    else
      match splitNl rest with
      | l :: ls => (c :: l) :: ls
      | [] => [[c]]

/-- Python `'\n'.join(lines)`. -/
def joinNl : List (List Char) → List Char
  | [] => []
  | [l] => l
  | l :: ls => l ++ '\n' :: joinNl ls

/-- `remove_blank_lines_in_math(content)` (lines 274-361). -/
def remove_blank_lines_in_math (content : List Char) : List Char :=
  joinNl (stripLines initState (splitNl content))

-- sanity checks against hand-traces of the source
example : remove_blank_lines_in_math "\\begin{align}\nA\n\n\nB\n\\end{align}".data
    = "\\begin{align}\nA\nB\n\\end{align}".data := by decide
example : remove_blank_lines_in_math "a\n\nb".data = "a\n\nb".data := by decide
example : remove_blank_lines_in_math "$$\na\n\nb\n$$".data
    = "$$\na\nb\n$$".data := by decide
-- divergence of the two trackers on a single-line \(x\) (the stripper keeps
-- in_math set because its close test looks for the literal `\\)`)
example : anyMath (lineStep initState "\\(x\\)".data) = true := by decide
example : is_in_math_mode "\\(x\\)".data 6 = false := by decide
-- divergence on a same-line $$x$$ pair
example : anyMath (lineStep initState "$$x$$".data) = true := by decide

/-! ### Path arithmetic (the small part of `pathlib` the script uses) -/

/-- `Path(p).name`: the component after the last slash. -/
def nameOf (p : List Char) : List Char :=
  (p.reverse.takeWhile (fun c => c ≠ '/')).reverse

/-- `Path(p).parent` (for the relative paths the script builds). -/
def parentPath (p : List Char) : List Char :=
  if p.contains '/' then ((p.reverse.dropWhile (fun c => c ≠ '/')).drop 1).reverse
  else ['.']

/-- `Path(d) / f`. -/
def joinPath (d f : List Char) : List Char :=
  if d = ['.'] then f else d ++ '/' :: f

/-- The stem of a file name (`Path.with_suffix` drops the part from the last
dot, unless the dot is the leading character of the name). -/
def stripExt (n : List Char) : List Char :=
  match n.reverse.dropWhile (fun c => c ≠ '.') with
  | [] => n
  | _ :: rest => if rest.isEmpty then n else rest.reverse

/-- `Path(p).with_suffix('.tex')`. -/
def withSuffixTex (p : List Char) : List Char :=
  p.take (p.length - (nameOf p).length) ++ stripExt (nameOf p) ++ ".tex".data

/-! ### The comment writers -/

/-- `math_delimiters` of `safe_add_math_comments` (line 133). -/
def math_delimiters : List (List Char) :=
  ["$$".data, "\\[".data, "\\]".data, "$".data, "\\(".data, "\\)".data]

/-- `safe_add_math_comments(content, file_path)` (lines 122-170). -/
def safe_add_math_comments (content file_path : List Char) : List Char :=
  let filename := nameOf file_path
  let content_stripped := pyStrip content
  let starts_with_delimiter := math_delimiters.any (fun d => d.isPrefixOf content_stripped)
  let ends_with_delimiter := math_delimiters.any (fun d => d.isSuffixOf content_stripped)
  if content_stripped.length < 10 then
    "% Inline: ".data ++ filename ++ '\n' :: content ++ '\n' :: "% End: ".data
      ++ filename ++ ['\n']
  else if starts_with_delimiter || ends_with_delimiter then
    let lines := splitNl content
    if lines.length ≥ 2 then
      let begin_comment := "% Begin: ".data ++ filename
      let end_comment := "% End: ".data ++ filename ++ ['\n']
      joinNl ([lines.headD []] ++ [begin_comment] ++ (lines.drop 1).dropLast
        ++ [end_comment] ++ [lines.getLastD []])
    else
      "% Begin: ".data ++ filename ++ '\n' :: content ++ '\n' :: "% End: ".data
        ++ filename ++ ['\n']
  else
    "% Begin: ".data ++ filename ++ '\n' :: content ++ '\n' :: "% End: ".data
      ++ filename ++ ['\n']

/-- `add_inclusion_comments(content, file_path, in_math_mode)` (lines 172-187). -/
def add_inclusion_comments (content file_path : List Char) (in_math_mode : Bool) :
    List Char :=
  if in_math_mode then safe_add_math_comments content file_path
  else
    "% --- Begin included file: ".data ++ nameOf file_path ++ " ---\n".data
      ++ content
      ++ "% --- End included file: ".data ++ nameOf file_path ++ " ---\n".data

/-! ### The directive matcher
Models Python `re` scanning for `r'\\(input|include)\s*(\[.*?\])?\s*\{([^}]+)\}'`:
ordered alternation, greedy `\s*`, lazy bracket body (`.` excludes newlines),
non-empty brace argument, leftmost-first non-overlapping matches. -/

/-- Matches `\s*\{([^}]+)\}`: returns (consumed text, argument, rest). -/
def matchBraceArg (l : List Char) : Option (List Char × List Char × List Char) :=
  let ws := l.takeWhile pyIsSpace
  match l.dropWhile pyIsSpace with
  | '{' :: r4 =>
    (match splitAtBrace r4 with
     | some (nm, r5) =>
       if nm.isEmpty then none else some (ws ++ '{' :: nm ++ ['}'], nm, r5)
     | none => none)
  | _ => none

/-- Matches `.*?\]\s*\{([^}]+)\}` after an opening `[`: tries each candidate
`]` from left to right (lazy `.*?`), gives up at a newline. -/
def scanBracketAux (inner : List Char) : List Char → Option (List Char × List Char × List Char)
  | [] => none
  | c :: rest =>
    if c = '\n' then none
    else if c = ']' then
      match matchBraceArg rest with
      | some (t, nm, r5) => some (inner ++ ']' :: t, nm, r5)
      | none => scanBracketAux (inner ++ [c]) rest
    else scanBracketAux (inner ++ [c]) rest

/-- One directive match: `match.group(0)` and `match.group(3)`. -/
structure DirMatch where
  text : List Char
  arg : List Char
deriving DecidableEq, Repr

/-- Attempts to match the directive pattern at the head of `l`;
returns the match and the rest of the text. -/
def matchDirectiveAt (l : List Char) : Option (DirMatch × List Char) :=
  match l with
  | '\\' :: r0 =>
    let cmd? : Option (List Char × List Char) :=
      if "input".data.isPrefixOf r0 then some ("input".data, r0.drop 5)
      else if "include".data.isPrefixOf r0 then some ("include".data, r0.drop 7)
      else none
    (match cmd? with
     | none => none
     | some (cmdTxt, r1) =>
       let ws1 := r1.takeWhile pyIsSpace
       match r1.dropWhile pyIsSpace with
       | '[' :: r2 =>
         (match scanBracketAux [] r2 with
          | some (brTxt, nm, r5) => some (⟨'\\' :: cmdTxt ++ ws1 ++ '[' :: brTxt, nm⟩, r5)
          | none => none)
       | r2 =>
         (match matchBraceArg r2 with
          | some (t, nm, r5) => some (⟨'\\' :: cmdTxt ++ ws1 ++ t, nm⟩, r5)
          | none => none))
  | _ => none

/-- Leftmost directive match: returns (text before the match, match, text
after the match), as `re.sub` finds them. -/
def findDirective : List Char → Option (List Char × DirMatch × List Char)
  | [] => none
  | c :: rest =>
    match matchDirectiveAt (c :: rest) with
    | some (m, suf) => some ([], m, suf)
    | none =>
      match findDirective rest with
      | some (pre, m, suf) => some (c :: pre, m, suf)
      | none => none

-- matcher sanity checks
example : findDirective "x \\input{a} y".data
    = some ("x ".data, ⟨"\\input{a}".data, "a".data⟩, " y".data) := by decide
example : findDirective "\\include[opt]{ch1}".data
    = some ([], ⟨"\\include[opt]{ch1}".data, "ch1".data⟩, []) := by decide
example : findDirective "\\inputs{a}".data = none := by decide
example : findDirective "\\input {b}".data
    = some ([], ⟨"\\input {b}".data, "b".data⟩, []) := by decide
example : findDirective "no directives here".data = none := by decide
example : findDirective "\\input{}".data = none := by decide

/-! ### The transclusion resolver -/

/-- The file system and the main file, as the resolver sees them.  A path maps
to absence, readable content, or a read error (I/O or encoding failure). -/
inductive FsEntry
  | absent
  | file (content : List Char)
  | unreadable (msg : List Char)
deriving DecidableEq

structure Env where
  fs : List Char → FsEntry
  mainFile : List Char

/-- `path.exists()`. -/
def fsExists (env : Env) (p : List Char) : Bool :=
  match env.fs p with
  | FsEntry.absent => false
  | _ => true

/-- `read_file` (lines 33-41): encoding fallback is internal to the model;
a read failure surfaces as the exception caught by `replace_command`. -/
def read_file (env : Env) (p : List Char) : Except (List Char) (List Char) :=
  match env.fs p with
  | FsEntry.file c => Except.ok c
  | FsEntry.unreadable m => Except.error m
  | FsEntry.absent => Except.error "No such file or directory".data

/-- Normalised directive argument (lines 202, 211-212): stripped, with the
`.tex` suffix appended when absent. -/
def normArg (arg : List Char) : List Char :=
  let fa := pyStrip arg
  if ".tex".data.isSuffixOf fa then fa else fa ++ ".tex".data

/-- Path resolution with fallbacks (lines 214-232): the primary path, then
`possible_paths` in order; `none` when nothing exists. -/
def resolveArgPath (env : Env) (current_dir arg : List Char) : Option (List Char) :=
  let file_arg := normArg arg
  let fp := joinPath current_dir file_arg
  if fsExists env fp then some fp
  else
    [fp, withSuffixTex fp,
     joinPath (parentPath env.mainFile) file_arg,
     joinPath (parentPath env.mainFile) (nameOf fp)].find? (fun p => fsExists env p)

/-- Mutable resolver state: `self.processed_files` plus the diagnostics
printed to standard output. -/
structure RSt where
  processed_files : List (List Char)
  log : List (List Char)
deriving DecidableEq

/-- The circular-include replacement (lines 235-240). -/
def circularComment (in_math : Bool) (matchText : List Char) : List Char :=
  if in_math then "% Circular include prevented: ".data ++ matchText
  else '\n' :: "% Circular include prevented: ".data ++ matchText ++ ['\n']

/-- The per-directive error replacement (lines 260-266). -/
def errorComment (in_math : Bool) (fp err matchText : List Char) : List Char :=
  let error_msg := "% Error including ".data ++ fp ++ ": ".data ++ err
  if in_math then error_msg ++ '\n' :: matchText
  else '\n' :: error_msg ++ '\n' :: matchText ++ ['\n']

/-- The `re.sub` loop of `resolve_input_commands` with `replace_command`
inlined (lines 189-272).  `depth` is `self.current_depth` after the increment
on entry; `before` is the already-scanned part of this call's original
content, so `before ++ pre` is `content[:match.start()]`.  `fuel` is an
embedding artifact making the recursion structural; every theorem below
either holds for all fuel or uses fuel visibly larger than what the concrete
input consumes. -/
def goM (env : Env) : Nat → Nat → RSt → List Char → List Char → List Char →
    RSt × List Char
  | 0, _, st, _, rem, _ => (st, rem)
  | fuel + 1, depth, st, before, rem, current_dir =>
    match findDirective rem with
    | none => (st, rem)
    | some (pre, m, suf) =>
      let tb := before ++ pre
      let in_math := anyMath (mathScan initState 0 none tb)
      let step : RSt × List Char :=
        match resolveArgPath env current_dir m.arg with
        | none =>
          ({ st with log := st.log ++ ["Warning: Could not find file ".data ++ normArg m.arg] },
           m.text)
        | some fp =>
          if st.processed_files.contains fp then
            ({ st with log := st.log ++ ["Warning: Circular include detected for ".data ++ fp] },
             circularComment in_math m.text)
          else
            let st' : RSt := ⟨fp :: st.processed_files,
                              st.log ++ ["Inlining: ".data ++ fp]⟩
            match read_file env fp with
            | Except.error e =>
              ({ st' with log := st'.log ++ ["Error processing ".data ++ fp] },
               errorComment in_math fp e m.text)
            | Except.ok fc =>
              let fc := if in_math then pyStrip fc else fc
              let next :=
                if depth > 10 then (st', fc)
                else goM env fuel (depth + 1) st' [] fc (parentPath fp)
              (next.1, add_inclusion_comments next.2 fp in_math)
      let cont := goM env fuel depth step.1 (before ++ pre ++ m.text) suf current_dir
      (cont.1, pre ++ step.2 ++ cont.2)

/-- `resolve_input_commands(content, current_dir)` at instance depth `depth`:
the depth guard of lines 191-194, then the substitution loop. -/
def resolve_input_commands (env : Env) (fuel depth : Nat) (st : RSt)
    (content current_dir : List Char) : RSt × List Char :=
  if depth > 10 then (st, content)
  else goM env fuel (depth + 1) st [] content current_dir

/-- `inline_latex` (lines 363-395) without the output write: read the main
file, seed `processed_files` with it, resolve, strip blank lines. -/
def inline_latex (env : Env) (fuel : Nat) : Option (RSt × List Char) :=
  match env.fs env.mainFile with
  | FsEntry.file main_content =>
    let r := resolve_input_commands env fuel 0 ⟨[env.mainFile], []⟩
               main_content (parentPath env.mainFile)
    some (r.1, remove_blank_lines_in_math r.2)
  | _ => none

/-- Example file systems used in concrete runs. -/
def mkFs (entries : List (List Char × FsEntry)) : List Char → FsEntry :=
  fun p =>
    match entries.find? (fun e => e.1 == p) with
    | some e => e.2
    | none => FsEntry.absent

-- end-to-end sanity check: the text-mode example of the spec
def subEnv : Env :=
  ⟨mkFs [("d/main.tex".data, FsEntry.file "\\input{sub}\n".data),
         ("d/sub.tex".data, FsEntry.file "x = 1\n".data)],
   "d/main.tex".data⟩

example : (inline_latex subEnv 30).map Prod.snd
    = some ("% --- Begin included file: sub.tex ---\nx = 1\n% --- End included file: sub.tex ---\n\n".data) := by
  decide

/-- A file whose single directive includes itself. -/
def cycleEnv : Env :=
  ⟨mkFs [("d/a.tex".data, FsEntry.file "\\input{a}\n".data)], "d/a.tex".data⟩

/-- A self-including file with two self-referencing directives. -/
def doubleCycleEnv : Env :=
  ⟨mkFs [("d/a.tex".data, FsEntry.file "\\input{a} \\input{a}\n".data)],
   "d/a.tex".data⟩

/-- Diamond inclusion: the main file includes `a` and `b`, both include `c`. -/
def diamondEnv : Env :=
  ⟨mkFs [("d/m.tex".data, FsEntry.file "\\input{a}\n\\input{b}\n".data),
         ("d/a.tex".data, FsEntry.file "\\input{c}\nABODY\n".data),
         ("d/b.tex".data, FsEntry.file "\\input{c}\nBBODY\n".data),
         ("d/c.tex".data, FsEntry.file "CBODY\n".data)],
   "d/m.tex".data⟩

/-- One unresolvable directive, one unreadable file, one good file. -/
def errEnv : Env :=
  ⟨mkFs [("d/m.tex".data,
          FsEntry.file "\\input{missing}\nmid\n\\input{bad}\n\\input{ok}\n".data),
         ("d/bad.tex".data, FsEntry.unreadable "utf-8 codec error".data),
         ("d/ok.tex".data, FsEntry.file "OKBODY\n".data)],
   "d/m.tex".data⟩

def circMarker : List Char := "% Circular include prevented".data

-- resolver sanity checks (hand-traced against the source)
example : (inline_latex cycleEnv 30).map (fun r => countSub circMarker r.2)
    = some 1 := by decide
example : (inline_latex doubleCycleEnv 30).map (fun r => countSub circMarker r.2)
    = some 2 := by decide
example : (inline_latex diamondEnv 30).map (fun r => countSub "CBODY".data r.2)
    = some 1 := by decide
example : (inline_latex diamondEnv 30).map (fun r => r.1.processed_files)
    = some ["d/b.tex".data, "d/c.tex".data, "d/a.tex".data, "d/m.tex".data] := by decide
example : (inline_latex errEnv 30).map (fun r => countSub "\\input{missing}".data r.2)
    = some 1 := by decide
example : (inline_latex errEnv 30).map
      (fun r => countSub "% Error including d/bad.tex: utf-8 codec error".data r.2)
    = some 1 := by decide
example : (inline_latex errEnv 30).map
      (fun r => countSub "% --- Begin included file: ok.tex ---\nOKBODY\n".data r.2)
    = some 1 := by decide

/-! ### Shared lemmas about line splitting and joining -/

theorem splitNl_ne_nil (l : List Char) : splitNl l ≠ [] := by
  cases l with
  | nil => simp [splitNl]
  | cons c rest =>
    simp only [splitNl]
    split
    · simp
    · cases h : splitNl rest <;> simp

theorem joinNl_cons (l : List Char) (ls : List (List Char)) :
    joinNl (l :: ls) = l ++ (if ls = [] then [] else '\n' :: joinNl ls) := by
  cases ls <;> simp [joinNl]

theorem joinNl_splitNl (l : List Char) : joinNl (splitNl l) = l := by
  induction l with
  | nil => simp [splitNl, joinNl]
  | cons c rest ih =>
    obtain ⟨x, xs, hx⟩ : ∃ x xs, splitNl rest = x :: xs := by
      cases h : splitNl rest with
      | nil => exact absurd h (splitNl_ne_nil rest)
      | cons x xs => exact ⟨x, xs, rfl⟩
    rw [hx] at ih
    by_cases hc : c = '\n'
    · subst hc
      simp only [splitNl, if_pos rfl, hx, joinNl]
      simpa using ih
    · simp only [splitNl, if_neg hc, hx]
      cases xs with
      | nil => simp only [joinNl] at ih ⊢; simp [ih]
      | cons y ys => simp only [joinNl] at ih ⊢; simp [ih]

theorem splitNl_append_cons (x y : List Char) :
    splitNl (x ++ '\n' :: y) = splitNl x ++ splitNl y := by
  induction x with
  | nil =>
    cases h : splitNl y with
    | nil => exact absurd h (splitNl_ne_nil y)
    | cons a as => simp [splitNl, h]
  | cons c rest ih =>
    by_cases hc : c = '\n'
    · subst hc; simp [splitNl, ih]
    · obtain ⟨x0, xs, hx⟩ : ∃ x0 xs, splitNl rest = x0 :: xs := by
        cases h : splitNl rest with
        | nil => exact absurd h (splitNl_ne_nil rest)
        | cons a as => exact ⟨a, as, rfl⟩
      have hx' : splitNl (rest ++ '\n' :: y) = x0 :: (xs ++ splitNl y) := by
        rw [ih, hx]; simp
      simp only [List.cons_append, splitNl, if_neg hc, List.append_eq, hx, hx']

theorem splitNl_no_newline (a : List Char) (h : '\n' ∉ a) : splitNl a = [a] := by
  induction a with
  | nil => simp [splitNl]
  | cons c rest ih =>
    simp only [List.mem_cons, not_or] at h
    have hc : ¬ c = '\n' := fun hh => h.1 hh.symm
    simp only [splitNl, if_neg hc, ih h.2]

theorem splitNl_wrap3 (B E c : List Char) (hB : '\n' ∉ B) (hE : '\n' ∉ E) :
    splitNl (B ++ '\n' :: (c ++ '\n' :: (E ++ '\n' :: [])))
      = B :: (splitNl c ++ [E, []]) := by
  rw [splitNl_append_cons, splitNl_append_cons, splitNl_append_cons,
    splitNl_no_newline _ hB, splitNl_no_newline _ hE]
  simp [splitNl]

theorem splitNl_wrap2 (B E : List Char) (hB : '\n' ∉ B) (hE : '\n' ∉ E) :
    splitNl (B ++ '\n' :: (E ++ '\n' :: [])) = [B, E, []] := by
  rw [splitNl_append_cons, splitNl_append_cons, splitNl_no_newline _ hB,
    splitNl_no_newline _ hE]
  simp [splitNl]

/-! ### Claim C1 -/

/-- C1: the claim states that the math-mode wrapper never inserts a blank
line in any of its three branches.  The code violates this in the
boundary-delimiter branch: the end comment carries an embedded newline
(line 151) and `'\n'.join` adds another, producing a blank line before the
final delimiter line.  This theorem evaluates the wrapper at the failing
input `"$$\nabcdefgh\n$$"`: the content has no blank line, the output does —
contradicting the function's own docstring (`NEVER add blank lines in math
mode`). -/
theorem C1_math_wrapper_inserts_blank_line :
    add_inclusion_comments "$$\nabcdefgh\n$$".data "f.tex".data true
      = "$$\n% Begin: f.tex\nabcdefgh\n% End: f.tex\n\n$$".data
    ∧ (splitNl "$$\nabcdefgh\n$$".data).contains [] = false
    ∧ (splitNl (add_inclusion_comments "$$\nabcdefgh\n$$".data "f.tex".data true)).contains []
      = true := by decide

/-! ### Claim C9 -/

/-- C9: counterexample to the claim as stated.  For content `"x = 1"` with no
trailing newline, non-math wrapping merges the end comment onto the content's
last line, so the end comment does not form its own line. -/
theorem C9_cex_end_comment_merged :
    add_inclusion_comments "x = 1".data "sub.tex".data false
      = "% --- Begin included file: sub.tex ---\nx = 1% --- End included file: sub.tex ---\n".data
    ∧ (splitNl (add_inclusion_comments "x = 1".data "sub.tex".data false)).contains
        "% --- End included file: sub.tex ---".data = false := by decide

theorem notMem_begin_line (file_path : List Char) (hn : '\n' ∉ nameOf file_path) :
    '\n' ∉ "% --- Begin included file: ".data ++ nameOf file_path ++ " ---".data := by
  simp only [List.mem_append, not_or]
  exact ⟨⟨by decide, hn⟩, by decide⟩

theorem notMem_end_line (file_path : List Char) (hn : '\n' ∉ nameOf file_path) :
    '\n' ∉ "% --- End included file: ".data ++ nameOf file_path ++ " ---".data := by
  simp only [List.mem_append, not_or]
  exact ⟨⟨by decide, hn⟩, by decide⟩

/-- C9 (amended): in non-math mode the begin comment always forms its own
first line; the end comment forms its own line whenever the content is empty
or ends with a newline, the content's own lines appearing unchanged in
between (for a file name without newline characters, which any real file
name satisfies).  For content not ending in a newline the end comment is
appended to the content's last line, as the counterexample shows. -/
theorem C9_text_mode_comments_on_own_lines (content file_path : List Char)
    (hn : '\n' ∉ nameOf file_path)
    (h : content = [] ∨ ∃ c, content = c ++ ['\n']) :
    splitNl (add_inclusion_comments content file_path false)
      = ("% --- Begin included file: ".data ++ nameOf file_path ++ " ---".data)
        :: ((splitNl content).dropLast
            ++ [("% --- End included file: ".data ++ nameOf file_path ++ " ---".data), []]) := by
  have hBnl := notMem_begin_line file_path hn
  have hEnl := notMem_end_line file_path hn
  rcases h with h | ⟨c, h⟩ <;> subst h
  · have key : add_inclusion_comments [] file_path false
        = ("% --- Begin included file: ".data ++ nameOf file_path ++ " ---".data)
          ++ '\n' :: (("% --- End included file: ".data ++ nameOf file_path ++ " ---".data)
            ++ '\n' :: []) := by
      simp [add_inclusion_comments]
    rw [key, splitNl_wrap2 _ _ hBnl hEnl]
    simp [splitNl]
  · have key : add_inclusion_comments (c ++ ['\n']) file_path false
        = ("% --- Begin included file: ".data ++ nameOf file_path ++ " ---".data)
          ++ '\n' :: (c ++ '\n' :: (("% --- End included file: ".data ++ nameOf file_path
              ++ " ---".data) ++ '\n' :: [])) := by
      simp [add_inclusion_comments]
    rw [key, splitNl_wrap3 _ _ _ hBnl hEnl]
    rw [show c ++ ['\n'] = c ++ '\n' :: [] from by simp, splitNl_append_cons]
    simp [splitNl, List.dropLast_concat]

/-- C9 witness: the amended theorem applied to the end-to-end example content
`"x = 1\n"` included as `sub.tex`. -/
theorem C9_witness :
    splitNl (add_inclusion_comments "x = 1\n".data "sub.tex".data false)
      = ("% --- Begin included file: ".data ++ nameOf "sub.tex".data ++ " ---".data)
        :: ((splitNl "x = 1\n".data).dropLast
            ++ [("% --- End included file: ".data ++ nameOf "sub.tex".data ++ " ---".data), []]) :=
  C9_text_mode_comments_on_own_lines "x = 1\n".data "sub.tex".data (by decide)
    (Or.inr ⟨"x = 1".data, by decide⟩)

/-! ### Claim C3 -/

/-- C3: counterexample to the claim as stated.  The claim says a `\]` scanned
while `inDisplayMath` holds makes `inMath` false *only if* the environment
stack is empty and `inDoubleDollar` is false.  In the document `$$\[\]` the
`\]` is scanned while the `$$` region is still open, yet the code (line 71)
clears `in_math` unconditionally: afterwards `in_math = false` although
`in_double_dollar = true`. -/
theorem C3_cex_in_math_cleared_despite_open_dollars :
    (mathScan initState 0 none "$$\\[\\]".data).in_math = false
    ∧ (mathScan initState 0 none "$$\\[\\]".data).in_double_dollar = true := by decide

/-- C3 (amended): `\]` scanned while `inDisplayMath` holds clears both
`inDisplayMath` and `inMath` unconditionally; nevertheless, whenever a
recognized math environment or a `$$` region is still open at that point,
`isInMathMode` at the position just after the `\]` still returns true,
because the scanner's verdict is the disjunction of all four trackers.
The last two conjuncts witness this at document level for an open `$$`
region and an open `align` environment, for every continuation. -/
theorem C3_close_bracket_keeps_observable_math (s : MathState) (prev : Option Char)
    (rest : List Char) (hdisp : s.in_display_math = true)
    (hopen : s.in_double_dollar = true ∨ s.math_env_stack ≠ []) :
    mathScan s 0 prev ('\\' :: ']' :: rest)
      = mathScan { s with in_display_math := false, in_math := false } 0 (some ']') rest
    ∧ anyMath (mathScan s 0 prev ['\\', ']']) = true
    ∧ (∀ r2, is_in_math_mode ("$$\\[\\]".data ++ r2) 6 = true)
    ∧ (∀ r2, is_in_math_mode ("\\begin{align}\\[\\]".data ++ r2) 17 = true) := by
  refine ⟨?_, ?_, ?_, ?_⟩
  · simp [mathScan, hdisp]
  · have h1 : mathScan s 0 prev ['\\', ']']
        = { s with in_display_math := false, in_math := false } := by
      simp [mathScan, hdisp]
    rw [h1]
    rcases hopen with h | h
    · simp [anyMath, h]
    · simp [anyMath, h]
  · intro r2
    have ht : ("$$\\[\\]".data ++ r2).take 6 = "$$\\[\\]".data := by
      rw [List.take_append_eq_append_take]
      norm_num
    rw [is_in_math_mode, ht]
    decide
  · intro r2
    have ht : ("\\begin{align}\\[\\]".data ++ r2).take 17 = "\\begin{align}\\[\\]".data := by
      rw [List.take_append_eq_append_take]
      norm_num
    rw [is_in_math_mode, ht]
    decide

/-- C3 witness: the amended theorem at the concrete state reached by
scanning `$$\[` (display math open inside an open `$$` region). -/
theorem C3_witness :
    (mathScan ⟨true, true, true, ([] : List (List Char))⟩ 0 none ('\\' :: ']' :: ['x'])
      = mathScan ⟨false, false, true, []⟩ 0 (some ']') ['x'])
    ∧ anyMath (mathScan ⟨true, true, true, []⟩ 0 none ['\\', ']']) = true
    ∧ (∀ r2, is_in_math_mode ("$$\\[\\]".data ++ r2) 6 = true)
    ∧ (∀ r2, is_in_math_mode ("\\begin{align}\\[\\]".data ++ r2) 17 = true) :=
  C3_close_bracket_keeps_observable_math ⟨true, true, true, []⟩ none ['x'] rfl (Or.inl rfl)

/-! ### Claim C6 -/

/-- C6: counterexample to the claim as stated.  Inserting `\$$` into the
empty document changes the math state: the double-dollar check of line 101
does not test for a preceding backslash, so the `$` right after `\$` pairs
with it into a `$$` toggle.  `isInMathMode` after the inserted `\$$` is true,
whereas it was false at the same point before the insertion. -/
theorem C6_cex_escaped_dollar_enters_double_dollar :
    is_in_math_mode "\\$$".data 3 = true
    ∧ is_in_math_mode [] 0 = false
    ∧ (mathScan initState 0 none "\\$$".data).in_double_dollar = true := by decide

/-- C6 (amended): a `$` preceded by a backslash is inert for the
*single-dollar* toggle, and the four-character sequence `\$\$` never changes
the state (first two conjuncts, provided the following character is not
another `$`); but a backslashed `$` immediately followed by `$` still
participates in the `$$` double-dollar toggle, as in `\$$` (third conjunct),
because the `$$` check never looks at the preceding character. -/
theorem C6_escaped_dollar_transitions (s : MathState) (prev : Option Char)
    (rest : List Char) (hnd : rest.head? ≠ some '$') :
    mathScan s 0 (some '\\') ('$' :: rest) = mathScan s 0 (some '$') rest
    ∧ mathScan s 0 prev ('\\' :: '$' :: '\\' :: '$' :: rest) = mathScan s 0 (some '$') rest
    ∧ (∀ rest2, mathScan s 0 prev ('\\' :: '$' :: '$' :: rest2)
        = mathScan (ddToggle s) 0 (some '$') rest2) := by
  refine ⟨?_, ?_, ?_⟩
  · cases rest with
    | nil => simp [mathScan]
    | cons c t =>
      have hc : ¬ c = '$' := by
        intro h
        exact hnd (by simp [h])
      simp [mathScan, hc]
  · cases rest with
    | nil => simp [mathScan, beginKw, endKw, List.isPrefixOf]
    | cons c t =>
      have hc : ¬ c = '$' := by
        intro h
        exact hnd (by simp [h])
      simp [mathScan, beginKw, endKw, List.isPrefixOf, hc]
  · intro rest2
    simp [mathScan, beginKw, endKw, List.isPrefixOf]

/-- C6 witness: the amended transitions at the initial state with a
non-dollar continuation. -/
theorem C6_witness :
    mathScan initState 0 (some '\\') ('$' :: ['x']) = mathScan initState 0 (some '$') ['x']
    ∧ mathScan initState 0 none ('\\' :: '$' :: '\\' :: '$' :: ['x'])
        = mathScan initState 0 (some '$') ['x']
    ∧ (∀ rest2, mathScan initState 0 none ('\\' :: '$' :: '$' :: rest2)
        = mathScan (ddToggle initState) 0 (some '$') rest2) :=
  C6_escaped_dollar_transitions initState none ['x'] (by decide)

/-! ### Claim C5 -/

/-- C5: counterexample to the claim as stated.  ``doubleCycleEnv`` is a file
that (transitively) includes itself, via two self-referencing directives;
expanding it produces an output containing two circular-inclusion markers
for the one cycle, not exactly one. -/
theorem C5_cex_double_self_include_two_markers :
    (inline_latex doubleCycleEnv 30).map (fun r => countSub circMarker r.2)
      = some 2 := by decide

/-- C5 (amended): resolution terminates (in the embedding every run is a
total function, mirroring the source's depth ceiling: whenever the entry
depth exceeds the fixed ceiling of 10, `resolve_input_commands` returns its
input unchanged and performs no further expansion — first conjunct); and a
self-including file produces exactly one circular-inclusion marker per
self-referencing directive occurrence: for the canonical cycle with a single
directive, exactly one marker (second conjunct). -/
theorem C5_ceiling_and_cycle_marker (env : Env) (fuel depth : Nat) (st : RSt)
    (content current_dir : List Char) (h : depth > 10) :
    resolve_input_commands env fuel depth st content current_dir = (st, content)
    ∧ (inline_latex cycleEnv 30).map (fun r => countSub circMarker r.2) = some 1 := by
  constructor
  · simp [resolve_input_commands, h]
  · decide

/-- C5 witness: the ceiling theorem applied at depth 11 over the cycle
environment. -/
theorem C5_witness :
    resolve_input_commands cycleEnv 5 11 ⟨[], []⟩ "\\input{a}".data "d".data
      = (⟨[], []⟩, "\\input{a}".data)
    ∧ (inline_latex cycleEnv 30).map (fun r => countSub circMarker r.2) = some 1 :=
  C5_ceiling_and_cycle_marker cycleEnv 5 11 ⟨[], []⟩ "\\input{a}".data "d".data
    (by norm_num)

/-! ### Claim C2 -/

/-- The running state after each line of the stripper's loop. -/
def statesAfter (s : MathState) : List (List Char) → List MathState
  | [] => []
  | l :: ls => lineStep s l :: statesAfter (lineStep s l) ls

theorem stripLines_sublist (s : MathState) (ls : List (List Char)) :
    (stripLines s ls).Sublist ls := by
  induction ls generalizing s with
  | nil => simp [stripLines]
  | cons l t ih =>
    simp only [stripLines]
    split
    · exact (ih _).cons l
    · exact (ih _).cons₂ l

theorem stripLines_zip (s : MathState) (ls : List (List Char)) :
    stripLines s ls = (ls.zip (statesAfter s ls)).filterMap
      (fun p => if anyMath p.2 && isBlank p.1 then none else some p.1) := by
  induction ls generalizing s with
  | nil => simp [stripLines, statesAfter]
  | cons l t ih =>
    by_cases h : (anyMath (lineStep s l) && isBlank l) = true
    · have h' : anyMath (lineStep s l) = true ∧ isBlank l = true := by simpa using h
      simp [stripLines, statesAfter, h, ih, List.filterMap_cons, h'.1, h'.2]
    · have h' : ¬(anyMath (lineStep s l) = true ∧ isBlank l = true) := by simpa using h
      simp [stripLines, statesAfter, h, ih, List.filterMap_cons, h']

theorem stripLines_count_nonblank (s : MathState) (ls : List (List Char))
    (l : List Char) (hl : isBlank l = false) :
    (stripLines s ls).count l = ls.count l := by
  induction ls generalizing s with
  | nil => simp [stripLines]
  | cons x t ih =>
    simp only [stripLines]
    by_cases h : (anyMath (lineStep s x) && isBlank x) = true
    · rw [if_pos h]
      have hx : isBlank x = true := by
        have h' : anyMath (lineStep s x) = true ∧ isBlank x = true := by simpa using h
        exact h'.2
      have hne : l ≠ x := by
        intro e
        rw [e, hx] at hl
        cases hl
      rw [ih, List.count_cons_of_ne hne]
    · rw [if_neg h]
      rw [List.count_cons, List.count_cons, ih]

/-- C2: the blank-line stripper keeps the input's lines in original order and
content, dropping exactly the lines that are blank after trimming while the
line-level running state (after processing the line's own delimiters) is in a
math region: (1) the output lines are a sublist of the input lines; (2) the
output is precisely the input filtered by the per-line drop decision taken
against the running state; (3) occurrences of every non-blank line are
preserved; (4) the math-environment block of the spec loses exactly its two
interior blank lines, while (5) a blank line outside any math region is kept
verbatim. -/
theorem C2_stripper_characterization :
    (∀ content, (stripLines initState (splitNl content)).Sublist (splitNl content))
    ∧ (∀ s ls, stripLines s ls = (ls.zip (statesAfter s ls)).filterMap
        (fun p => if anyMath p.2 && isBlank p.1 then none else some p.1))
    ∧ (∀ s ls l, isBlank l = false → (stripLines s ls).count l = ls.count l)
    ∧ remove_blank_lines_in_math "\\begin{align}\nA\n\n\nB\n\\end{align}".data
        = "\\begin{align}\nA\nB\n\\end{align}".data
    ∧ remove_blank_lines_in_math "x\n\ny".data = "x\n\ny".data := by
  refine ⟨fun content => stripLines_sublist _ _, stripLines_zip,
    fun s ls l h => stripLines_count_nonblank s ls l h, by decide, by decide⟩

/-- C2 witness: the count-preservation component at a concrete non-blank
line. -/
theorem C2_witness :
    (stripLines initState (splitNl "$$\nx\n\n$$".data)).count "x".data
      = (splitNl "$$\nx\n\n$$".data).count "x".data :=
  C2_stripper_characterization.2.2.1 initState (splitNl "$$\nx\n\n$$".data) "x".data
    (by decide)

/-! ### Claim C7 -/

theorem goM_nil (env : Env) (fuel depth : Nat) (st : RSt) (before current_dir : List Char) :
    goM env fuel depth st before [] current_dir = (st, []) := by
  cases fuel <;> simp [goM, findDirective]

theorem stripLines_all_clear (s : MathState) (ls : List (List Char))
    (h : (statesAfter s ls).all (fun t => !anyMath t) = true) :
    stripLines s ls = ls := by
  induction ls generalizing s with
  | nil => simp [stripLines]
  | cons l t ih =>
    simp only [statesAfter, List.all_cons, Bool.and_eq_true] at h
    have h1 : anyMath (lineStep s l) = false := by simpa using h.1
    simp only [stripLines, h1, Bool.false_and, if_neg (by simp : ¬ (false = true))]
    rw [ih _ h.2]

/-- C7: a document with zero transclusion directives (no match of the
directive pattern) is returned unchanged by `resolve_input_commands`; a
document whose line-level math state never becomes active is returned
unchanged by the blank-line stripper; hence the whole expansion pipeline is
the identity on directive-free, math-free documents. -/
theorem C7_expansion_identity :
    (∀ env fuel depth st content current_dir, findDirective content = none →
      resolve_input_commands env fuel depth st content current_dir = (st, content))
    ∧ (∀ content, (statesAfter initState (splitNl content)).all (fun t => !anyMath t) = true →
      remove_blank_lines_in_math content = content)
    ∧ (∀ env fuel depth st content current_dir, findDirective content = none →
      (statesAfter initState (splitNl content)).all (fun t => !anyMath t) = true →
      remove_blank_lines_in_math
        (resolve_input_commands env fuel depth st content current_dir).2 = content) := by
  have h1 : ∀ env fuel depth st content current_dir, findDirective content = none →
      resolve_input_commands env fuel depth st content current_dir = (st, content) := by
    intro env fuel depth st content current_dir h
    unfold resolve_input_commands
    split
    · rfl
    · cases fuel with
      | zero => simp [goM]
      | succ n => simp [goM, h]
  have h2 : ∀ content,
      (statesAfter initState (splitNl content)).all (fun t => !anyMath t) = true →
      remove_blank_lines_in_math content = content := by
    intro content h
    rw [remove_blank_lines_in_math, stripLines_all_clear _ _ h, joinNl_splitNl]
  refine ⟨h1, h2, ?_⟩
  intro env fuel depth st content current_dir ha hb
  rw [h1 env fuel depth st content current_dir ha]
  exact h2 content hb

/-- C7 witness: the pipeline identity at a concrete directive-free, math-free
document. -/
theorem C7_witness :
    remove_blank_lines_in_math
      (resolve_input_commands subEnv 3 0 ⟨[], []⟩ "hello\n\nworld".data "d".data).2
      = "hello\n\nworld".data :=
  C7_expansion_identity.2.2 subEnv 3 0 ⟨[], []⟩ "hello\n\nworld".data "d".data
    (by decide) (by decide)

/-! ### Claim C8 -/

/-- C8: directive-level failures are isolated.  (a) When no fallback path
resolves the argument, a warning is logged and the directive text is left
verbatim.  (b) When the resolved file's read fails, the inline error comment
plus the original directive text is substituted (and the failure is logged).
(c) In a concrete run with an unresolvable directive, an unreadable file and
a good file, both failures recover locally and the remaining directive is
still expanded. -/
theorem C8_directive_failures_isolated :
    (∀ env fuel depth st before rem current_dir pre m,
      findDirective rem = some (pre, m, []) →
      resolveArgPath env current_dir m.arg = none →
      goM env (fuel + 1) depth st before rem current_dir
        = ({ st with
              log := st.log ++ ["Warning: Could not find file ".data ++ normArg m.arg] },
           pre ++ m.text))
    ∧ (∀ env fuel depth st before rem current_dir pre m fp e,
      findDirective rem = some (pre, m, []) →
      resolveArgPath env current_dir m.arg = some fp →
      st.processed_files.contains fp = false →
      env.fs fp = FsEntry.unreadable e →
      goM env (fuel + 1) depth st before rem current_dir
        = (⟨fp :: st.processed_files,
            (st.log ++ ["Inlining: ".data ++ fp]) ++ ["Error processing ".data ++ fp]⟩,
           pre ++ errorComment (anyMath (mathScan initState 0 none (before ++ pre)))
             fp e m.text))
    ∧ (inline_latex errEnv 30).map (fun r => countSub "\\input{missing}".data r.2) = some 1
    ∧ (inline_latex errEnv 30).map
        (fun r => countSub "% Error including d/bad.tex: utf-8 codec error".data r.2)
        = some 1
    ∧ (inline_latex errEnv 30).map (fun r => countSub "\\input{bad}".data r.2) = some 1
    ∧ (inline_latex errEnv 30).map
        (fun r => countSub "% --- Begin included file: ok.tex ---\nOKBODY\n".data r.2)
        = some 1 := by
  refine ⟨?_, ?_, by decide, by decide, by decide, by decide⟩
  · intro env fuel depth st before rem current_dir pre m hf hr
    simp [goM, hf, hr, goM_nil]
  · intro env fuel depth st before rem current_dir pre m fp e hf hr hc hfs
    have hmem : fp ∉ st.processed_files := by
      intro hm
      have hel := List.elem_eq_true_of_mem hm
      rw [List.contains, hel] at hc
      cases hc
    simp [goM, hf, hr, hc, hmem, read_file, hfs, goM_nil]

/-- C8 witness: the unresolvable-directive component at a concrete
environment and directive. -/
theorem C8_witness :
    goM errEnv 3 1 ⟨["d/m.tex".data], []⟩ [] "\\input{missing}".data "d".data
      = ({ processed_files := ["d/m.tex".data],
           log := ([] : List (List Char))
             ++ ["Warning: Could not find file ".data ++ normArg "missing".data] },
         [] ++ ("\\input{missing}".data : List Char)) :=
  C8_directive_failures_isolated.1 errEnv 2 1 ⟨["d/m.tex".data], []⟩ []
    "\\input{missing}".data "d".data [] ⟨"\\input{missing}".data, "missing".data⟩
    (by decide) (by decide)

/-! ### Claim C10 -/

theorem goM_processed_mono (env : Env) (fuel : Nat) :
    ∀ depth st before rem current_dir,
      st.processed_files ⊆ (goM env fuel depth st before rem current_dir).1.processed_files := by
  induction fuel with
  | zero => intro depth st before rem dir; simp [goM]
  | succ n ih =>
    intro depth st before rem dir
    cases hf : findDirective rem with
    | none => simp [goM, hf]
    | some x =>
      obtain ⟨pre, m, suf⟩ := x
      simp only [goM, hf]
      refine List.Subset.trans ?_ (ih depth _ (before ++ pre ++ m.text) suf dir)
      cases hr : resolveArgPath env dir m.arg with
      | none => simp [hr]
      | some fp =>
        simp only [hr]
        by_cases hc : st.processed_files.contains fp
        · rw [if_pos hc]
          exact List.Subset.refl _
        · rw [if_neg hc]
          cases hread : read_file env fp with
          | error e =>
            simp only [hread]
            exact List.subset_cons_self fp st.processed_files
          | ok fc =>
            simp only [hread]
            by_cases hd : depth > 10
            · simp only [if_pos hd]
              exact List.subset_cons_self fp st.processed_files
            · simp only [if_neg hd]
              refine List.Subset.trans (List.subset_cons_self fp st.processed_files) ?_
              exact ih (depth + 1) ⟨fp :: st.processed_files, _⟩ []
                (if anyMath (mathScan initState 0 none (before ++ pre)) then pyStrip fc else fc)
                (parentPath fp)

theorem goM_processed_nodup (env : Env) (fuel : Nat) :
    ∀ depth st before rem current_dir, st.processed_files.Nodup →
      (goM env fuel depth st before rem current_dir).1.processed_files.Nodup := by
  induction fuel with
  | zero => intro depth st before rem dir h; simpa [goM] using h
  | succ n ih =>
    intro depth st before rem dir h
    cases hf : findDirective rem with
    | none => simpa [goM, hf] using h
    | some x =>
      obtain ⟨pre, m, suf⟩ := x
      simp only [goM, hf]
      refine ih depth _ (before ++ pre ++ m.text) suf dir ?_
      cases hr : resolveArgPath env dir m.arg with
      | none => simpa [hr] using h
      | some fp =>
        simp only [hr]
        by_cases hc : st.processed_files.contains fp
        · rw [if_pos hc]
          exact h
        · have hmem : fp ∉ st.processed_files := by
            intro hm
            have hel := List.elem_eq_true_of_mem hm
            rw [List.contains, hel] at hc
            exact hc rfl
          rw [if_neg hc]
          cases hread : read_file env fp with
          | error e =>
            simp only [hread]
            exact List.Nodup.cons hmem h
          | ok fc =>
            simp only [hread]
            by_cases hd : depth > 10
            · simp only [if_pos hd]
              exact List.Nodup.cons hmem h
            · simp only [if_neg hd]
              exact ih (depth + 1) ⟨fp :: st.processed_files, _⟩ []
                (if anyMath (mathScan initState 0 none (before ++ pre)) then pyStrip fc else fc)
                (parentPath fp) (List.Nodup.cons hmem h)

/-- C10: the visited set only ever grows (no path is removed), it never
acquires duplicates (each resolved path is inlined at most once), and in the
concrete diamond-include run the shared file `c.tex` is read and expanded
exactly once: its body appears once, the second directive resolving to it is
replaced by exactly one circular-inclusion comment, and the final visited set
lists each file (including the main file, seeded first) exactly once. -/
theorem C10_visited_set_inlines_each_file_once :
    (∀ env fuel depth st before rem current_dir,
      st.processed_files ⊆ (goM env fuel depth st before rem current_dir).1.processed_files)
    ∧ (∀ env fuel depth st before rem current_dir, st.processed_files.Nodup →
      (goM env fuel depth st before rem current_dir).1.processed_files.Nodup)
    ∧ (inline_latex diamondEnv 30).map (fun r => r.1.processed_files)
        = some ["d/b.tex".data, "d/c.tex".data, "d/a.tex".data, "d/m.tex".data]
    ∧ (inline_latex diamondEnv 30).map (fun r => countSub "CBODY".data r.2) = some 1
    ∧ (inline_latex diamondEnv 30).map (fun r => countSub circMarker r.2) = some 1 := by
  exact ⟨fun env fuel => goM_processed_mono env fuel,
    fun env fuel => goM_processed_nodup env fuel, by decide, by decide, by decide⟩

/-- C10 witness: the no-duplicates component at a concrete state whose
visited set already holds the main file. -/
theorem C10_witness :
    (goM diamondEnv 3 1 ⟨["d/m.tex".data], []⟩ [] "x".data "d".data).1.processed_files.Nodup :=
  C10_visited_set_inlines_each_file_once.2.1 diamondEnv 3 1 ⟨["d/m.tex".data], []⟩ []
    "x".data "d".data (by decide)

/-! ### Claim C4: infrastructure

The agreement family: lines free of backslashes with evenly many
non-adjacent dollars (this includes blank lines, plain text and
`$a$ $b$`-style inline math), whole-line `\begin{NAME}` / `\end{NAME}`,
and single-line display math `\[x\]` with a plain interior. -/

/-- No occurrence of the two-character sequence `p0 p1`. -/
def noPair (p0 p1 : Char) : List Char → Bool
  | a :: b :: t => !(a = p0 && b = p1) && noPair p0 p1 (b :: t)
  | _ => true

/-- Backslash-free line with evenly many non-adjacent dollars. -/
def textLine (l : List Char) : Bool :=
  l.all (fun c => c ≠ '\\') && noPair '$' '$' l && (l.count '$') % 2 = 0

/-- Environment names considered in the family: non-empty, no closing brace,
no backslash, no dollar. -/
def envNameOk (nm : List Char) : Bool :=
  !nm.isEmpty && nm.all (fun c => c ≠ '}' && c ≠ '\\' && c ≠ '$')

def beginLine (nm : List Char) : List Char :=
  '\\' :: 'b' :: 'e' :: 'g' :: 'i' :: 'n' :: '{' :: (nm ++ ['}'])

def endLine (nm : List Char) : List Char :=
  '\\' :: 'e' :: 'n' :: 'd' :: '{' :: (nm ++ ['}'])

def displayLine (x : List Char) : List Char :=
  '\\' :: '[' :: (x ++ ['\\', ']'])

/-- Interior of a one-line display pair: no backslash, no dollar. -/
def plainInterior (x : List Char) : Bool :=
  x.all (fun c => c ≠ '\\' && c ≠ '$')

/-- Lines on which the agreement of the two scanners is proved. -/
inductive GoodLine : List Char → Prop
  | text (l : List Char) : textLine l = true → GoodLine l
  | beg (nm : List Char) : envNameOk nm = true → GoodLine (beginLine nm)
  | fin (nm : List Char) : envNameOk nm = true → GoodLine (endLine nm)
  | disp (x : List Char) : plainInterior x = true → GoodLine (displayLine x)

theorem noPair_cons₂ (p0 p1 a b : Char) (t : List Char) :
    noPair p0 p1 (a :: b :: t) = (!(a = p0 && b = p1) && noPair p0 p1 (b :: t)) := rfl

theorem noPair_of_not_mem (p0 p1 : Char) (l : List Char) (h : p0 ∉ l) :
    noPair p0 p1 l = true := by
  induction l with
  | nil => rfl
  | cons a t ih =>
    cases t with
    | nil => rfl
    | cons b t2 =>
      have ha : ¬ a = p0 := by
        intro e
        exact h (by simp [e])
      have ht : p0 ∉ b :: t2 := fun hm => h (List.mem_cons_of_mem a hm)
      rw [noPair_cons₂]
      simp [ha, ih ht]

theorem noPair_tail (p0 p1 a : Char) (t : List Char) (h : noPair p0 p1 (a :: t) = true) :
    noPair p0 p1 t = true := by
  cases t with
  | nil => rfl
  | cons b t2 =>
    rw [noPair_cons₂, Bool.and_eq_true] at h
    exact h.2

theorem noPair_head (p0 p1 a b : Char) (t : List Char)
    (h : noPair p0 p1 (a :: b :: t) = true) : ¬ (a = p0 ∧ b = p1) := by
  intro hab
  rw [noPair_cons₂] at h
  simp [hab.1, hab.2] at h

theorem noPair_append_left_free (p0 p1 : Char) (x tail : List Char)
    (hx : p0 ∉ x) (ht : noPair p0 p1 tail = true) :
    noPair p0 p1 (x ++ tail) = true := by
  induction x with
  | nil => simpa using ht
  | cons a t ih =>
    have ha : ¬ a = p0 := by
      intro e
      exact hx (by simp [e])
    have ht' : p0 ∉ t := fun hm => hx (List.mem_cons_of_mem a hm)
    have ih' := ih ht'
    rw [List.cons_append]
    cases h2 : t ++ tail with
    | nil => rfl
    | cons b t2 =>
      rw [h2] at ih'
      rw [noPair_cons₂]
      simp [ha, ih']

theorem findSubAux_not_mem (p0 : Char) (pt l : List Char) :
    ∀ i, p0 ∉ l → findSubAux (p0 :: pt) i l = none := by
  induction l with
  | nil => intro i _; simp [findSubAux, List.isPrefixOf]
  | cons c rest ih =>
    intro i h
    have hc : ¬ p0 = c := by
      intro e
      exact h (by simp [e])
    have hpre : (p0 :: pt).isPrefixOf (c :: rest) = false := by
      simp [List.isPrefixOf, hc]
    simp only [findSubAux, hpre]
    rw [if_neg (by simp)]
    exact ih (i + 1) fun hm => h (List.mem_cons_of_mem c hm)

theorem findSub_not_mem (p0 : Char) (pt l : List Char) (h : p0 ∉ l) :
    findSub (p0 :: pt) l = none :=
  findSubAux_not_mem p0 pt l 0 h

theorem containsSub_not_mem (p0 : Char) (pt l : List Char) (h : p0 ∉ l) :
    containsSub (p0 :: pt) l = false := by
  simp [containsSub, findSub_not_mem p0 pt l h]

theorem findSubAux_pair_none (p0 p1 : Char) (pt l : List Char) :
    ∀ i, noPair p0 p1 l = true → findSubAux (p0 :: p1 :: pt) i l = none := by
  induction l with
  | nil => intro i _; simp [findSubAux, List.isPrefixOf]
  | cons c rest ih =>
    intro i h
    cases rest with
    | nil => simp [findSubAux, List.isPrefixOf]
    | cons b t2 =>
      have hpair := noPair_head p0 p1 c b t2 h
      have hpre : (p0 :: p1 :: pt).isPrefixOf (c :: b :: t2) = false := by
        by_cases h1 : p0 = c
        · by_cases h2 : p1 = b
          · exact absurd ⟨h1.symm, h2.symm⟩ hpair
          · simp [List.isPrefixOf, h2]
        · simp [List.isPrefixOf, h1]
      simp only [findSubAux, hpre]
      rw [if_neg (by simp)]
      exact ih (i + 1) (noPair_tail p0 p1 c (b :: t2) h)

theorem containsSub_pair_none (p0 p1 : Char) (pt l : List Char)
    (h : noPair p0 p1 l = true) : containsSub (p0 :: p1 :: pt) l = false := by
  simp [containsSub, findSub, findSubAux_pair_none p0 p1 pt l 0 h]

theorem countSubAux_not_mem (p0 : Char) (pt l : List Char) :
    ∀ k, p0 ∉ l → countSubAux (p0 :: pt) k l = 0 := by
  induction l with
  | nil => intro k _; rfl
  | cons c rest ih =>
    intro k h
    have hc : ¬ p0 = c := by
      intro e
      exact h (by simp [e])
    have ht : p0 ∉ rest := fun hm => h (List.mem_cons_of_mem c hm)
    cases k with
    | succ k2 => exact ih k2 ht
    | zero =>
      have hpre : (p0 :: pt).isPrefixOf (c :: rest) = false := by
        simp [List.isPrefixOf, hc]
      simp only [countSubAux, hpre]
      rw [if_neg (by simp)]
      exact ih 0 ht

theorem countSub_not_mem (p0 : Char) (pt l : List Char) (h : p0 ∉ l) :
    countSub (p0 :: pt) l = 0 :=
  countSubAux_not_mem p0 pt l 0 h

theorem countSubAux_pair_zero (p0 p1 : Char) (pt l : List Char) :
    ∀ k, noPair p0 p1 l = true → countSubAux (p0 :: p1 :: pt) k l = 0 := by
  induction l with
  | nil => intro k _; rfl
  | cons c rest ih =>
    intro k h
    have ht := noPair_tail p0 p1 c rest h
    cases k with
    | succ k2 => exact ih k2 ht
    | zero =>
      cases rest with
      | nil => simp [countSubAux, List.isPrefixOf]
      | cons b t2 =>
        have hpair := noPair_head p0 p1 c b t2 h
        have hpre : (p0 :: p1 :: pt).isPrefixOf (c :: b :: t2) = false := by
          by_cases h1 : p0 = c
          · by_cases h2 : p1 = b
            · exact absurd ⟨h1.symm, h2.symm⟩ hpair
            · simp [List.isPrefixOf, h2]
          · simp [List.isPrefixOf, h1]
        simp only [countSubAux, hpre]
        rw [if_neg (by simp)]
        exact ih 0 ht

theorem countSub_pair_zero (p0 p1 : Char) (pt l : List Char)
    (h : noPair p0 p1 l = true) : countSub (p0 :: p1 :: pt) l = 0 :=
  countSubAux_pair_zero p0 p1 pt l 0 h

theorem countSub_single (c : Char) (l : List Char) : countSub [c] l = l.count c := by
  rw [countSub]
  induction l with
  | nil => rfl
  | cons a rest ih =>
    by_cases h : c = a
    · subst h
      have hpre : [c].isPrefixOf (c :: rest) = true := by simp [List.isPrefixOf]
      simp [countSubAux, hpre, ih]
      have hcc := List.count_cons_self c rest
      omega
    · have hpre : [c].isPrefixOf (a :: rest) = false := by simp [List.isPrefixOf, h]
      simp only [countSubAux, hpre]
      rw [if_neg (by simp), ih, List.count_cons_of_ne h]

theorem envMatchesAux_ge_length (kw : List Char) (l : List Char) :
    ∀ k, l.length ≤ k → envMatchesAux kw k l = [] := by
  induction l with
  | nil => intro k _; rfl
  | cons c rest ih =>
    intro k hk
    cases k with
    | zero => simp at hk
    | succ k2 =>
      have : envMatchesAux kw (k2 + 1) (c :: rest) = envMatchesAux kw k2 rest := rfl
      rw [this]
      exact ih k2 (by simpa using hk)

theorem envMatchesAux_not_mem (k0 : Char) (kt l : List Char) :
    ∀ k, k0 ∉ l → envMatchesAux (k0 :: kt) k l = [] := by
  induction l with
  | nil => intro k _; rfl
  | cons c rest ih =>
    intro k h
    have hc : ¬ k0 = c := by
      intro e
      exact h (by simp [e])
    have ht : k0 ∉ rest := fun hm => h (List.mem_cons_of_mem c hm)
    cases k with
    | succ k2 => exact ih k2 ht
    | zero =>
      have hpre : (k0 :: kt).isPrefixOf (c :: rest) = false := by
        simp [List.isPrefixOf, hc]
      simp only [envMatchesAux, hpre]
      rw [if_neg (by simp)]
      exact ih 0 ht

theorem envMatchesAux_pair_nil (k0 k1 : Char) (kt l : List Char) :
    ∀ k, noPair k0 k1 l = true → envMatchesAux (k0 :: k1 :: kt) k l = [] := by
  induction l with
  | nil => intro k _; rfl
  | cons c rest ih =>
    intro k h
    have ht := noPair_tail k0 k1 c rest h
    cases k with
    | succ k2 => exact ih k2 ht
    | zero =>
      cases rest with
      | nil => simp [envMatchesAux, List.isPrefixOf]
      | cons b t2 =>
        have hpair := noPair_head k0 k1 c b t2 h
        have hpre : (k0 :: k1 :: kt).isPrefixOf (c :: b :: t2) = false := by
          by_cases h1 : k0 = c
          · by_cases h2 : k1 = b
            · exact absurd ⟨h1.symm, h2.symm⟩ hpair
            · simp [List.isPrefixOf, h2]
          · simp [List.isPrefixOf, h1]
        simp only [envMatchesAux, hpre]
        rw [if_neg (by simp)]
        exact ih 0 ht

theorem splitAtBrace_append (nm r : List Char) (h : '}' ∉ nm) :
    splitAtBrace (nm ++ '}' :: r) = some (nm, r) := by
  induction nm with
  | nil => simp [splitAtBrace]
  | cons c t ih =>
    have hc : ¬ c = '}' := by
      intro e
      exact h (by simp [e])
    have ht : '}' ∉ t := fun hm => h (List.mem_cons_of_mem c hm)
    simp [splitAtBrace, hc, ih ht]

/-- The previous character after also scanning `l` (or `prev` if `l` is
empty). -/
def lastOr (prev : Option Char) (l : List Char) : Option Char :=
  match l.getLast? with
  | some c => some c
  | none => prev

theorem lastOr_cons (prev : Option Char) (c : Char) (t : List Char) :
    lastOr prev (c :: t) = lastOr (some c) t := by
  cases t with
  | nil => rfl
  | cons d t2 =>
    obtain ⟨x, hx⟩ := Option.isSome_iff_exists.mp
      (show (d :: t2).getLast?.isSome by rw [List.getLast?_isSome]; simp)
    simp [lastOr, List.getLast?_cons_cons, hx]

theorem mathScan_skip (l : List Char) : ∀ (s : MathState) (k : Nat) (prev : Option Char)
    (suffix : List Char), l.length ≤ k →
    mathScan s k prev (l ++ suffix) = mathScan s (k - l.length) (lastOr prev l) suffix := by
  induction l with
  | nil => intro s k prev suffix _; simp [lastOr]
  | cons c t ih =>
    intro s k prev suffix hk
    cases k with
    | zero => simp at hk
    | succ k2 =>
      have h1 : mathScan s (k2 + 1) prev (c :: (t ++ suffix))
          = mathScan s k2 (some c) (t ++ suffix) := rfl
      have hlen : k2 + 1 - (c :: t).length = k2 - t.length := by
        simp [List.length_cons]
      rw [List.cons_append, h1, ih s k2 (some c) suffix (by simpa using hk),
        lastOr_cons, hlen]

def mToggle (s : MathState) : MathState := { s with in_math := !s.in_math }

def mPow (n : Nat) (s : MathState) : MathState := if n % 2 = 0 then s else mToggle s

theorem mPow_succ (n : Nat) (s : MathState) : mPow (n + 1) s = mPow n (mToggle s) := by
  rcases Nat.mod_two_eq_zero_or_one n with h | h
  · have h1 : (n + 1) % 2 = 1 := by omega
    simp [mPow, h, h1]
  · have h1 : (n + 1) % 2 = 0 := by omega
    have h2 : mToggle (mToggle s) = s := by
      simp [mToggle]
    simp [mPow, h, h1, h2]

/-- Scanning a backslash-free line with no adjacent dollars toggles `in_math`
once per dollar and changes nothing else. -/
theorem mathScan_nobs (l : List Char) : ∀ (s : MathState) (prev : Option Char)
    (suffix : List Char), (∀ c ∈ l, c ≠ '\\') → noPair '$' '$' l = true →
    prev ≠ some '\\' → suffix.head? ≠ some '$' →
    mathScan s 0 prev (l ++ suffix)
      = mathScan (mPow (l.count '$') s) 0 (lastOr prev l) suffix := by
  induction l with
  | nil =>
    intro s prev suffix _ _ _ _
    simp [lastOr, mPow]
  | cons c t ih =>
    intro s prev suffix hbs hnp hprev hsuf
    have hcbs : c ≠ '\\' := hbs c (List.mem_cons_self c t)
    have htbs : ∀ d ∈ t, d ≠ '\\' := fun d hd => hbs d (List.mem_cons_of_mem c hd)
    have htnp := noPair_tail '$' '$' c t hnp
    by_cases hcd : c = '$'
    · subst hcd
      have hnext : (t ++ suffix).head? ≠ some '$' := by
        cases t with
        | nil => simpa using hsuf
        | cons b t2 =>
          have hh := noPair_head '$' '$' '$' b t2 hnp
          have hb : b ≠ '$' := fun e => hh ⟨rfl, e⟩
          simp [hb]
      have hstep : mathScan s 0 prev ('$' :: (t ++ suffix))
          = mathScan (mToggle s) 0 (some '$') (t ++ suffix) := by
        cases hta : t ++ suffix with
        | nil => simp [mathScan, mToggle, hprev]
        | cons b t2 =>
          have hb : ¬ b = '$' := by
            intro e
            rw [hta] at hnext
            simp [e] at hnext
          simp [mathScan, hta, hb, hprev, mToggle]
      rw [List.cons_append, hstep, ih (mToggle s) (some '$') suffix htbs htnp
        (by simp) hsuf, lastOr_cons]
      rw [List.count_cons_self, mPow_succ]
    · have hstep : mathScan s 0 prev (c :: (t ++ suffix))
          = mathScan s 0 (some c) (t ++ suffix) := by
        simp [mathScan, hcbs, hcd]
      rw [List.cons_append, hstep, ih s (some c) suffix htbs htnp
        (by simpa using hcbs) hsuf, lastOr_cons, List.count_cons_of_ne]
      intro e
      exact hcd e.symm

theorem envNameOk_elims (nm : List Char) (h : envNameOk nm = true) :
    nm.isEmpty = false ∧ '}' ∉ nm ∧ '\\' ∉ nm ∧ '$' ∉ nm := by
  rw [envNameOk, Bool.and_eq_true] at h
  obtain ⟨h1, h2⟩ := h
  rw [List.all_eq_true] at h2
  refine ⟨by simpa using h1, ?_, ?_, ?_⟩
  · intro hm
    have := h2 _ hm
    simp at this
  · intro hm
    have := h2 _ hm
    simp at this
  · intro hm
    have := h2 _ hm
    simp at this

theorem textLine_elims (l : List Char) (h : textLine l = true) :
    '\\' ∉ l ∧ noPair '$' '$' l = true ∧ (l.count '$') % 2 = 0 := by
  rw [textLine, Bool.and_eq_true, Bool.and_eq_true] at h
  obtain ⟨⟨h1, h2⟩, h3⟩ := h
  rw [List.all_eq_true] at h1
  refine ⟨?_, h2, by simpa using h3⟩
  intro hm
  have := h1 _ hm
  simp at this

theorem plainInterior_elims (x : List Char) (h : plainInterior x = true) :
    '\\' ∉ x ∧ '$' ∉ x := by
  rw [plainInterior, List.all_eq_true] at h
  constructor
  · intro hm
    have := h _ hm
    simp at this
  · intro hm
    have := h _ hm
    simp at this

/-- Scanning a `textLine` (even dollar parity) leaves the state unchanged. -/
theorem mathScan_textLine (l : List Char) (s : MathState) (prev : Option Char)
    (suffix : List Char) (hl : textLine l = true) (hprev : prev ≠ some '\\')
    (hsuf : suffix.head? ≠ some '$') :
    mathScan s 0 prev (l ++ suffix) = mathScan s 0 (lastOr prev l) suffix := by
  obtain ⟨hbs, hnp, heven⟩ := textLine_elims l hl
  rw [mathScan_nobs l s prev suffix (fun c hc e => hbs (e ▸ hc)) hnp hprev hsuf]
  rw [mPow, if_pos heven]

/-- Scanning a `\begin{NAME}` line consumes it as one token. -/
theorem mathScan_beginLine (nm : List Char) (s : MathState) (prev : Option Char)
    (suffix : List Char) (h : envNameOk nm = true) :
    mathScan s 0 prev (beginLine nm ++ suffix)
      = mathScan (beginStep s nm) 0 (some '}') suffix := by
  obtain ⟨hne, hbrace, _, _⟩ := envNameOk_elims nm h
  have key : beginLine nm ++ suffix
      = '\\' :: 'b' :: 'e' :: 'g' :: 'i' :: 'n' :: '{' :: (nm ++ '}' :: suffix) := by
    simp [beginLine]
  have step1 : mathScan s 0 prev
        ('\\' :: 'b' :: 'e' :: 'g' :: 'i' :: 'n' :: '{' :: (nm ++ '}' :: suffix))
      = mathScan (beginStep s nm) (7 + nm.length) (some '\\')
        ('b' :: 'e' :: 'g' :: 'i' :: 'n' :: '{' :: (nm ++ '}' :: suffix)) := by
    simp [mathScan, beginKw, List.isPrefixOf, splitAtBrace_append nm suffix hbrace, hne]
  have body : 'b' :: 'e' :: 'g' :: 'i' :: 'n' :: '{' :: (nm ++ '}' :: suffix)
      = ('b' :: 'e' :: 'g' :: 'i' :: 'n' :: '{' :: (nm ++ ['}'])) ++ suffix := by
    simp
  have blen : ('b' :: 'e' :: 'g' :: 'i' :: 'n' :: '{' :: (nm ++ ['}'])).length
      = 7 + nm.length := by
    simp
    omega
  have blast : lastOr (some '\\') ('b' :: 'e' :: 'g' :: 'i' :: 'n' :: '{' :: (nm ++ ['}']))
      = some '}' := by
    have hg : ('{' :: (nm ++ ['}'])).getLast? = some '}' := by
      rw [show ('{' :: (nm ++ ['}'])) = ('{' :: nm) ++ ['}'] from by simp,
        List.getLast?_concat]
    simp [lastOr, List.getLast?_cons_cons, hg]
  rw [key, step1, body, mathScan_skip _ _ _ _ _ (le_of_eq blen), blen, blast,
    Nat.sub_self]

/-- Scanning an `\end{NAME}` line consumes it as one token. -/
theorem mathScan_endLine (nm : List Char) (s : MathState) (prev : Option Char)
    (suffix : List Char) (h : envNameOk nm = true) :
    mathScan s 0 prev (endLine nm ++ suffix)
      = mathScan (endStep s nm) 0 (some '}') suffix := by
  obtain ⟨hne, hbrace, _, _⟩ := envNameOk_elims nm h
  have key : endLine nm ++ suffix
      = '\\' :: 'e' :: 'n' :: 'd' :: '{' :: (nm ++ '}' :: suffix) := by
    simp [endLine]
  have step1 : mathScan s 0 prev ('\\' :: 'e' :: 'n' :: 'd' :: '{' :: (nm ++ '}' :: suffix))
      = mathScan (endStep s nm) (5 + nm.length) (some '\\')
        ('e' :: 'n' :: 'd' :: '{' :: (nm ++ '}' :: suffix)) := by
    simp [mathScan, beginKw, endKw, List.isPrefixOf,
      splitAtBrace_append nm suffix hbrace, hne]
  have body : 'e' :: 'n' :: 'd' :: '{' :: (nm ++ '}' :: suffix)
      = ('e' :: 'n' :: 'd' :: '{' :: (nm ++ ['}'])) ++ suffix := by
    simp
  have blen : ('e' :: 'n' :: 'd' :: '{' :: (nm ++ ['}'])).length = 5 + nm.length := by
    simp
    omega
  have blast : lastOr (some '\\') ('e' :: 'n' :: 'd' :: '{' :: (nm ++ ['}']))
      = some '}' := by
    have hg : ('{' :: (nm ++ ['}'])).getLast? = some '}' := by
      rw [show ('{' :: (nm ++ ['}'])) = ('{' :: nm) ++ ['}'] from by simp,
        List.getLast?_concat]
    simp [lastOr, List.getLast?_cons_cons, hg]
  rw [key, step1, body, mathScan_skip _ _ _ _ _ (le_of_eq blen), blen, blast,
    Nat.sub_self]

/-- Scanning a one-line `\[x\]` enters and then leaves display math. -/
theorem mathScan_displayLine (x : List Char) (s : MathState) (prev : Option Char)
    (suffix : List Char) (h : plainInterior x = true) :
    mathScan s 0 prev (displayLine x ++ suffix)
      = mathScan { s with in_math := false, in_display_math := false } 0 (some ']')
          suffix := by
  obtain ⟨hbs, hdol⟩ := plainInterior_elims x h
  have key : displayLine x ++ suffix = '\\' :: '[' :: (x ++ '\\' :: ']' :: suffix) := by
    simp [displayLine]
  have step1 : mathScan s 0 prev ('\\' :: '[' :: (x ++ '\\' :: ']' :: suffix))
      = mathScan { s with in_display_math := true, in_math := true } 0 (some '[')
          (x ++ '\\' :: ']' :: suffix) := by
    simp [mathScan]
  have hnp : noPair '$' '$' x := noPair_of_not_mem '$' '$' x hdol
  have step2 : mathScan { s with in_display_math := true, in_math := true } 0 (some '[')
        (x ++ '\\' :: ']' :: suffix)
      = mathScan { s with in_display_math := true, in_math := true } 0
          (lastOr (some '[') x) ('\\' :: ']' :: suffix) := by
    rw [mathScan_nobs x _ (some '[') _ (fun c hc e => hbs (e ▸ hc)) hnp (by simp)
      (by simp)]
    rw [List.count_eq_zero.mpr hdol]
    rfl
  have step3 : mathScan { s with in_display_math := true, in_math := true } 0
        (lastOr (some '[') x) ('\\' :: ']' :: suffix)
      = mathScan { s with in_math := false, in_display_math := false } 0 (some ']')
          suffix := by
    simp [mathScan]
  rw [key, step1, step2, step3]

theorem findSubAux_append_skip (p0 : Char) (pt l : List Char) :
    ∀ i rest, p0 ∉ l →
      findSubAux (p0 :: pt) i (l ++ rest) = findSubAux (p0 :: pt) (i + l.length) rest := by
  induction l with
  | nil => intro i rest _; simp
  | cons c t ih =>
    intro i rest h
    have hc : ¬ p0 = c := by
      intro e
      exact h (by simp [e])
    have hpre : (p0 :: pt).isPrefixOf (c :: (t ++ rest)) = false := by
      simp [List.isPrefixOf, hc]
    rw [List.cons_append]
    simp only [findSubAux, hpre]
    rw [if_neg (by simp), ih (i + 1) rest (fun hm => h (List.mem_cons_of_mem c hm))]
    congr 1
    simp
    omega

/-- A `textLine` triggers none of the stripper's per-line checks. -/
theorem lineStep_textLine (s : MathState) (l : List Char) (h : textLine l = true) :
    lineStep s l = s := by
  obtain ⟨hbs, hnp, heven⟩ := textLine_elims l h
  have c1 : containsSub openBracketPat l = false := containsSub_not_mem '\\' ['['] l hbs
  have c2 : containsSub closeBracketPat l = false := containsSub_not_mem '\\' [']'] l hbs
  have c5 : containsSub openParenPat l = false := containsSub_not_mem '\\' ['('] l hbs
  have c6 : containsSub doubleBackParenPat l = false :=
    containsSub_not_mem '\\' ['\\', ')'] l hbs
  have cdd : countSub ddPat l = 0 := countSub_pair_zero '$' '$' [] l hnp
  have cedd : countSub escDdPat l = 0 := countSub_not_mem '\\' ['$', '\\', '$'] l hbs
  have cd : countSub dollarPat l = l.count '$' := countSub_single '$' l
  have ced : countSub escDollarPat l = 0 := countSub_not_mem '\\' ['$'] l hbs
  have eb : envMatches beginPat l = [] :=
    envMatchesAux_not_mem '\\' ['b', 'e', 'g', 'i', 'n', '{'] l 0 hbs
  have ee : envMatches endPat l = [] :=
    envMatchesAux_not_mem '\\' ['e', 'n', 'd', '{'] l 0 hbs
  have hmod : ¬ (((l.count '$' : Int)) % 2 = 1) := by omega
  simp [lineStep, c1, c2, c5, c6, cdd, cedd, cd, ced, eb, ee, hmod]

theorem envMatchesAux_cons_zero (kw : List Char) (c : Char) (rest : List Char) :
    envMatchesAux kw 0 (c :: rest)
      = if kw.isPrefixOf (c :: rest) then
          match splitAtBrace ((c :: rest).drop kw.length) with
          | some (nm, _) =>
            if nm.isEmpty then envMatchesAux kw 0 rest
            else nm :: envMatchesAux kw (kw.length + nm.length) rest
          | none => envMatchesAux kw 0 rest
        else envMatchesAux kw 0 rest := rfl

theorem envMatches_begin_self (nm : List Char) (h : envNameOk nm = true) :
    envMatches beginPat (beginLine nm) = [nm] := by
  obtain ⟨hne, hbrace, hbs, hdol⟩ := envNameOk_elims nm h
  have hpre : beginPat.isPrefixOf
      ('\\' :: ('b' :: 'e' :: 'g' :: 'i' :: 'n' :: '{' :: (nm ++ ['}']))) = true := by
    simp [beginPat, List.isPrefixOf]
  have hdrop : ('\\' :: ('b' :: 'e' :: 'g' :: 'i' :: 'n' :: '{' :: (nm ++ ['}']))).drop
      beginPat.length = nm ++ '}' :: [] := by
    simp [beginPat]
  have hrest : ('b' :: 'e' :: 'g' :: 'i' :: 'n' :: '{' :: (nm ++ ['}'])).length
      ≤ beginPat.length + nm.length := by
    simp [beginPat]
    omega
  rw [envMatches, show beginLine nm
      = '\\' :: ('b' :: 'e' :: 'g' :: 'i' :: 'n' :: '{' :: (nm ++ ['}'])) from rfl,
    envMatchesAux_cons_zero, if_pos hpre, hdrop, splitAtBrace_append nm [] hbrace]
  simp [hne, envMatchesAux_ge_length beginPat _ _ hrest]

theorem envMatches_end_self (nm : List Char) (h : envNameOk nm = true) :
    envMatches endPat (endLine nm) = [nm] := by
  obtain ⟨hne, hbrace, hbs, hdol⟩ := envNameOk_elims nm h
  have hpre : endPat.isPrefixOf
      ('\\' :: ('e' :: 'n' :: 'd' :: '{' :: (nm ++ ['}']))) = true := by
    simp [endPat, List.isPrefixOf]
  have hdrop : ('\\' :: ('e' :: 'n' :: 'd' :: '{' :: (nm ++ ['}']))).drop
      endPat.length = nm ++ '}' :: [] := by
    simp [endPat]
  have hrest : ('e' :: 'n' :: 'd' :: '{' :: (nm ++ ['}'])).length
      ≤ endPat.length + nm.length := by
    simp [endPat]
    omega
  rw [envMatches, show endLine nm
      = '\\' :: ('e' :: 'n' :: 'd' :: '{' :: (nm ++ ['}'])) from rfl,
    envMatchesAux_cons_zero, if_pos hpre, hdrop, splitAtBrace_append nm [] hbrace]
  simp [hne, envMatchesAux_ge_length endPat _ _ hrest]

theorem noPair_beginLine (nm : List Char) (p1 : Char) (hp1 : p1 ≠ 'b')
    (hbs : '\\' ∉ nm) : noPair '\\' p1 (beginLine nm) = true := by
  have hb : ¬ ('b' = p1) := fun e => hp1 e.symm
  have hmem : '\\' ∉ 'b' :: 'e' :: 'g' :: 'i' :: 'n' :: '{' :: (nm ++ ['}']) := by
    simp [hbs]
  rw [beginLine, noPair_cons₂]
  simp [hb, noPair_of_not_mem '\\' p1 _ hmem]

theorem noPair_endLine (nm : List Char) (p1 : Char) (hp1 : p1 ≠ 'e')
    (hbs : '\\' ∉ nm) : noPair '\\' p1 (endLine nm) = true := by
  have hb : ¬ ('e' = p1) := fun e => hp1 e.symm
  have hmem : '\\' ∉ 'e' :: 'n' :: 'd' :: '{' :: (nm ++ ['}']) := by
    simp [hbs]
  rw [endLine, noPair_cons₂]
  simp [hb, noPair_of_not_mem '\\' p1 _ hmem]

/-- A `\begin{NAME}` line only triggers the begin-environments check. -/
theorem lineStep_beginLine (s : MathState) (nm : List Char) (h : envNameOk nm = true) :
    lineStep s (beginLine nm) = beginStep s nm := by
  obtain ⟨hne, hbrace, hbs, hdol⟩ := envNameOk_elims nm h
  have hdolm : '$' ∉ beginLine nm := by simp [beginLine, hdol]
  have c1 : containsSub openBracketPat (beginLine nm) = false :=
    containsSub_pair_none '\\' '[' [] _ (noPair_beginLine nm '[' (by decide) hbs)
  have c2 : containsSub closeBracketPat (beginLine nm) = false :=
    containsSub_pair_none '\\' ']' [] _ (noPair_beginLine nm ']' (by decide) hbs)
  have c5 : containsSub openParenPat (beginLine nm) = false :=
    containsSub_pair_none '\\' '(' [] _ (noPair_beginLine nm '(' (by decide) hbs)
  have c6 : containsSub doubleBackParenPat (beginLine nm) = false :=
    containsSub_pair_none '\\' '\\' [')'] _ (noPair_beginLine nm '\\' (by decide) hbs)
  have cdd : countSub ddPat (beginLine nm) = 0 := countSub_not_mem '$' ['$'] _ hdolm
  have cedd : countSub escDdPat (beginLine nm) = 0 :=
    countSub_pair_zero '\\' '$' ['\\', '$'] _ (noPair_beginLine nm '$' (by decide) hbs)
  have cd : countSub dollarPat (beginLine nm) = 0 := by
    rw [show dollarPat = ['$'] from rfl, countSub_single]
    exact List.count_eq_zero.mpr hdolm
  have ced : countSub escDollarPat (beginLine nm) = 0 :=
    countSub_pair_zero '\\' '$' [] _ (noPair_beginLine nm '$' (by decide) hbs)
  have eb : envMatches beginPat (beginLine nm) = [nm] := envMatches_begin_self nm h
  have ee : envMatches endPat (beginLine nm) = [] :=
    envMatchesAux_pair_nil '\\' 'e' ['n', 'd', '{'] _ 0
      (noPair_beginLine nm 'e' (by decide) hbs)
  simp [lineStep, c1, c2, c5, c6, cdd, cedd, cd, ced, eb, ee]

/-- An `\end{NAME}` line only triggers the end-environments check. -/
theorem lineStep_endLine (s : MathState) (nm : List Char) (h : envNameOk nm = true) :
    lineStep s (endLine nm) = endStep s nm := by
  obtain ⟨hne, hbrace, hbs, hdol⟩ := envNameOk_elims nm h
  have hdolm : '$' ∉ endLine nm := by simp [endLine, hdol]
  have c1 : containsSub openBracketPat (endLine nm) = false :=
    containsSub_pair_none '\\' '[' [] _ (noPair_endLine nm '[' (by decide) hbs)
  have c2 : containsSub closeBracketPat (endLine nm) = false :=
    containsSub_pair_none '\\' ']' [] _ (noPair_endLine nm ']' (by decide) hbs)
  have c5 : containsSub openParenPat (endLine nm) = false :=
    containsSub_pair_none '\\' '(' [] _ (noPair_endLine nm '(' (by decide) hbs)
  have c6 : containsSub doubleBackParenPat (endLine nm) = false :=
    containsSub_pair_none '\\' '\\' [')'] _ (noPair_endLine nm '\\' (by decide) hbs)
  have cdd : countSub ddPat (endLine nm) = 0 := countSub_not_mem '$' ['$'] _ hdolm
  have cedd : countSub escDdPat (endLine nm) = 0 :=
    countSub_pair_zero '\\' '$' ['\\', '$'] _ (noPair_endLine nm '$' (by decide) hbs)
  have cd : countSub dollarPat (endLine nm) = 0 := by
    rw [show dollarPat = ['$'] from rfl, countSub_single]
    exact List.count_eq_zero.mpr hdolm
  have ced : countSub escDollarPat (endLine nm) = 0 :=
    countSub_pair_zero '\\' '$' [] _ (noPair_endLine nm '$' (by decide) hbs)
  have eb : envMatches beginPat (endLine nm) = [] :=
    envMatchesAux_pair_nil '\\' 'b' ['e', 'g', 'i', 'n', '{'] _ 0
      (noPair_endLine nm 'b' (by decide) hbs)
  have ee : envMatches endPat (endLine nm) = [nm] := envMatches_end_self nm h
  simp [lineStep, c1, c2, c5, c6, cdd, cedd, cd, ced, eb, ee]

theorem noPair_displayLine (x : List Char) (p1 : Char) (h1 : p1 ≠ '[') (h2 : p1 ≠ ']')
    (hbs : '\\' ∉ x) : noPair '\\' p1 (displayLine x) = true := by
  have hb1 : ¬ ('[' = p1) := fun e => h1 e.symm
  have hb2 : ¬ (']' = p1) := fun e => h2 e.symm
  have hmem : '\\' ∉ '[' :: x := by simp [hbs]
  have tail : noPair '\\' p1 ('[' :: (x ++ ['\\', ']'])) = true := by
    rw [show '[' :: (x ++ ['\\', ']']) = ('[' :: x) ++ ('\\' :: [']']) from by simp]
    apply noPair_append_left_free _ _ _ _ hmem
    rw [noPair_cons₂]
    simp [hb2, noPair]
  rw [displayLine, noPair_cons₂]
  simp [hb1, tail]

/-- A one-line `\[x\]` is invisible to the stripper when display math is not
already open: the opening check sees the closing `\]` after the `\[`, and the
closing check requires the running display flag. -/
theorem lineStep_displayLine (s : MathState) (x : List Char) (h : plainInterior x = true)
    (hdisp : s.in_display_math = false) :
    lineStep s (displayLine x) = s := by
  obtain ⟨hbs, hdol⟩ := plainInterior_elims x h
  have hmem1 : '\\' ∉ '[' :: x := by simp [hbs]
  have hdolm : '$' ∉ displayLine x := by simp [displayLine, hdol]
  have f1 : findSub openBracketPat (displayLine x) = some 0 := by
    rw [displayLine, findSub]
    have hp : openBracketPat.isPrefixOf ('\\' :: '[' :: (x ++ ['\\', ']'])) = true := by
      simp [openBracketPat, List.isPrefixOf]
    simp [findSubAux, hp]
  have f2 : findSub closeBracketPat (displayLine x) = some (2 + x.length) := by
    rw [displayLine, findSub]
    have h0 : closeBracketPat.isPrefixOf ('\\' :: '[' :: (x ++ ['\\', ']'])) = false := by
      simp [closeBracketPat, List.isPrefixOf]
    simp only [findSubAux, h0]
    rw [if_neg (by simp)]
    rw [if_neg (by simp [List.isPrefixOf])]
    rw [show closeBracketPat = '\\' :: [']'] from rfl]
    rw [findSubAux_append_skip '\\' [']'] x _ _ hbs]
    have hp : (('\\' : Char) :: [']']).isPrefixOf ('\\' :: [']']) = true := by decide
    simp [findSubAux, hp]
  have hcont1 : containsSub openBracketPat (displayLine x) = true := by
    simp [containsSub, f1]
  have hcont2 : containsSub closeBracketPat (displayLine x) = true := by
    simp [containsSub, f2]
  have c5 : containsSub openParenPat (displayLine x) = false :=
    containsSub_pair_none '\\' '(' [] _ (noPair_displayLine x '(' (by decide) (by decide) hbs)
  have c6 : containsSub doubleBackParenPat (displayLine x) = false :=
    containsSub_pair_none '\\' '\\' [')'] _
      (noPair_displayLine x '\\' (by decide) (by decide) hbs)
  have cdd : countSub ddPat (displayLine x) = 0 := countSub_not_mem '$' ['$'] _ hdolm
  have cedd : countSub escDdPat (displayLine x) = 0 :=
    countSub_pair_zero '\\' '$' ['\\', '$'] _
      (noPair_displayLine x '$' (by decide) (by decide) hbs)
  have cd : countSub dollarPat (displayLine x) = 0 := by
    rw [show dollarPat = ['$'] from rfl, countSub_single]
    exact List.count_eq_zero.mpr hdolm
  have ced : countSub escDollarPat (displayLine x) = 0 :=
    countSub_pair_zero '\\' '$' [] _
      (noPair_displayLine x '$' (by decide) (by decide) hbs)
  have eb : envMatches beginPat (displayLine x) = [] :=
    envMatchesAux_pair_nil '\\' 'b' ['e', 'g', 'i', 'n', '{'] _ 0
      (noPair_displayLine x 'b' (by decide) (by decide) hbs)
  have ee : envMatches endPat (displayLine x) = [] :=
    envMatchesAux_pair_nil '\\' 'e' ['n', 'd', '{'] _ 0
      (noPair_displayLine x 'e' (by decide) (by decide) hbs)
  simp [lineStep, hcont1, hcont2, f1, f2, c5, c6, cdd, cedd, cd, ced, eb, ee, hdisp]

/-- The coupling invariant between the character-level state (left) and the
line-level state (right) at line boundaries of the agreement family. -/
def Inv (sc sl : MathState) : Prop :=
  sc.in_display_math = false ∧ sl.in_display_math = false ∧
  sc.in_double_dollar = false ∧ sl.in_double_dollar = false ∧
  sc.math_env_stack = sl.math_env_stack ∧
  (sc.math_env_stack = [] → sc.in_math = false ∧ sl.in_math = false)

theorem Inv_init : Inv initState initState :=
  ⟨rfl, rfl, rfl, rfl, rfl, fun _ => ⟨rfl, rfl⟩⟩

theorem Inv_anyMath (sc sl : MathState) (h : Inv sc sl) : anyMath sc = anyMath sl := by
  obtain ⟨h1, h2, h3, h4, h5, h6⟩ := h
  by_cases hs : sc.math_env_stack = []
  · obtain ⟨hm1, hm2⟩ := h6 hs
    rw [anyMath, anyMath, h1, h2, h3, h4, hm1, hm2, h5]
  · have hne : sl.math_env_stack.isEmpty = false := by
      cases hq : sl.math_env_stack.isEmpty
      · rfl
      · exact absurd (h5.trans (List.isEmpty_iff.mp hq)) hs
    rw [anyMath, anyMath, h1, h2, h3, h4, h5, hne]
    simp

theorem Inv_begin (sc sl : MathState) (nm : List Char) (h : Inv sc sl) :
    Inv (beginStep sc nm) (beginStep sl nm) := by
  obtain ⟨h1, h2, h3, h4, h5, h6⟩ := h
  by_cases hm : isMathEnv nm = true
  · simp only [beginStep, if_pos hm]
    exact ⟨h1, h2, h3, h4, by rw [h5], fun hcon => by simp at hcon⟩
  · simp only [beginStep, if_neg hm]
    exact ⟨h1, h2, h3, h4, h5, h6⟩

theorem Inv_end (sc sl : MathState) (nm : List Char) (h : Inv sc sl) :
    Inv (endStep sc nm) (endStep sl nm) := by
  obtain ⟨h1, h2, h3, h4, h5, h6⟩ := h
  cases hs : sc.math_env_stack with
  | nil =>
    have hs' : sl.math_env_stack = [] := h5 ▸ hs
    simp only [endStep, hs, hs']
    exact ⟨h1, h2, h3, h4, h5, h6⟩
  | cons hd tl =>
    have hs' : sl.math_env_stack = hd :: tl := h5 ▸ hs
    simp only [endStep, hs, hs', h1, h2, h3, h4]
    by_cases hm : isMathEnv nm = true
    · simp only [if_pos hm, Bool.not_false, Bool.and_true]
      by_cases ht : tl.isEmpty = true
      · simp only [ht, if_true]
        exact ⟨rfl, rfl, rfl, rfl, rfl, fun _ => ⟨rfl, rfl⟩⟩
      · have ht' : tl.isEmpty = false := by
          cases hq : tl.isEmpty
          · rfl
          · exact absurd hq ht
        simp only [ht', Bool.false_eq_true, if_false]
        refine ⟨rfl, rfl, rfl, rfl, rfl, fun hcon => ?_⟩
        have htl : tl = [] := hcon
        rw [htl] at ht'
        simp at ht'
    · simp only [if_neg hm]
      refine ⟨h1, h2, h3, h4, h5, fun hcon => ?_⟩
      rw [hs] at hcon
      cases hcon

theorem Inv_display (sc sl : MathState) (h : Inv sc sl) :
    Inv { sc with in_math := false, in_display_math := false } sl := by
  obtain ⟨h1, h2, h3, h4, h5, h6⟩ := h
  exact ⟨rfl, h2, h3, h4, h5, fun hcon => ⟨rfl, (h6 hcon).2⟩⟩

theorem mathScan_newline (s : MathState) (p : Option Char) (j : List Char) :
    mathScan s 0 p ('\n' :: j) = mathScan s 0 (some '\n') j := by
  simp [mathScan]

/-- Main induction: over the agreement family, the character scanner at the
end of the document and the line machine after all lines satisfy the
coupling invariant, from any invariant-coupled starting pair. -/
theorem scan_fold_inv (lines : List (List Char)) :
    (∀ l ∈ lines, GoodLine l) → ∀ sc sl prev, Inv sc sl → prev ≠ some '\\' →
    Inv (mathScan sc 0 prev (joinNl lines)) (List.foldl lineStep sl lines) := by
  induction lines with
  | nil =>
    intro _ sc sl prev h _
    simpa [joinNl] using h
  | cons l rest ih =>
    intro hg sc sl prev hinv hprev
    have hgl : GoodLine l := hg l (List.mem_cons_self l rest)
    have hgr : ∀ l2 ∈ rest, GoodLine l2 := fun l2 h2 => hg l2 (List.mem_cons_of_mem l h2)
    cases rest with
    | nil =>
      rw [show joinNl [l] = l ++ [] from by simp [joinNl]]
      simp only [List.foldl_cons, List.foldl_nil]
      rcases hgl with ⟨l, ht⟩ | ⟨nm, hnm⟩ | ⟨nm, hnm⟩ | ⟨x, hx⟩
      · rw [mathScan_textLine l sc prev [] ht hprev (by simp),
          lineStep_textLine sl l ht]
        exact hinv
      · rw [mathScan_beginLine nm sc prev [] hnm, lineStep_beginLine sl nm hnm]
        exact Inv_begin sc sl nm hinv
      · rw [mathScan_endLine nm sc prev [] hnm, lineStep_endLine sl nm hnm]
        exact Inv_end sc sl nm hinv
      · rw [mathScan_displayLine x sc prev [] hx,
          lineStep_displayLine sl x hx hinv.2.1]
        exact Inv_display sc sl hinv
    | cons l2 rest2 =>
      have hjoin : joinNl (l :: l2 :: rest2) = l ++ '\n' :: joinNl (l2 :: rest2) := by
        simp [joinNl]
      rw [hjoin, List.foldl_cons]
      rcases hgl with ⟨l, ht⟩ | ⟨nm, hnm⟩ | ⟨nm, hnm⟩ | ⟨x, hx⟩
      · rw [mathScan_textLine l sc prev ('\n' :: joinNl (l2 :: rest2)) ht hprev (by simp),
          lineStep_textLine sl l ht, mathScan_newline]
        exact ih hgr sc sl (some '\n') hinv (by simp)
      · rw [mathScan_beginLine nm sc prev ('\n' :: joinNl (l2 :: rest2)) hnm,
          lineStep_beginLine sl nm hnm, mathScan_newline]
        exact ih hgr (beginStep sc nm) (beginStep sl nm) (some '\n')
          (Inv_begin sc sl nm hinv) (by simp)
      · rw [mathScan_endLine nm sc prev ('\n' :: joinNl (l2 :: rest2)) hnm,
          lineStep_endLine sl nm hnm, mathScan_newline]
        exact ih hgr (endStep sc nm) (endStep sl nm) (some '\n')
          (Inv_end sc sl nm hinv) (by simp)
      · rw [mathScan_displayLine x sc prev ('\n' :: joinNl (l2 :: rest2)) hx,
          lineStep_displayLine sl x hx hinv.2.1, mathScan_newline]
        exact ih hgr _ sl (some '\n') (Inv_display sc sl hinv) (by simp)

/-- Joining the first `k` lines yields a prefix of joining all lines. -/
theorem joinNl_take_prefix (lines : List (List Char)) (k : Nat) :
    joinNl (lines.take k) <+: joinNl lines := by
  induction lines generalizing k with
  | nil => simp [joinNl]
  | cons l rest ih =>
    cases k with
    | zero => simp [joinNl]
    | succ k' =>
      rw [List.take_succ_cons]
      cases rest with
      | nil => simp
      | cons r rs =>
        cases k' with
        | zero =>
          rw [List.take_zero]
          exact ⟨'\n' :: joinNl (r :: rs), rfl⟩
        | succ k2 =>
          have h1 : joinNl (l :: (r :: rs).take (k2 + 1))
              = l ++ '\n' :: joinNl ((r :: rs).take (k2 + 1)) := by
            rw [List.take_succ_cons, joinNl_cons]
            simp
          obtain ⟨t, ht⟩ := ih (k2 + 1)
          refine ⟨t, ?_⟩
          rw [h1, show joinNl (l :: r :: rs) = l ++ '\n' :: joinNl (r :: rs) from rfl, ← ht]
          simp

/-- C4: the character-level scanner `is_in_math_mode` and the line-level state
machine of `remove_blank_lines_in_math` agree at every line boundary — after
consuming the first `k` lines, the line-level verdict equals `is_in_math_mode`
at the character offset of the end of line `k` — for every document whose lines
all belong to the agreement family `GoodLine` (backslash-free text lines with
evenly many non-adjacent dollars, `\begin\x7bNAME\x7d` lines,
`\end\x7bNAME\x7d` lines, and one-line `\[x\]` displays).  The claim's
unrestricted form, over all balanced and properly nested documents, fails:
see the counterexample `\(x\)`. -/
theorem C4_scanners_agree_on_good_lines (lines : List (List Char))
    (hg : ∀ l ∈ lines, GoodLine l) (k : Nat) :
    anyMath (List.foldl lineStep initState (lines.take k))
      = is_in_math_mode (joinNl lines) (joinNl (lines.take k)).length := by
  have hpre : joinNl (lines.take k) <+: joinNl lines := joinNl_take_prefix lines k
  have htake : (joinNl lines).take (joinNl (lines.take k)).length = joinNl (lines.take k) :=
    (List.prefix_iff_eq_take.mp hpre).symm
  have hinv := scan_fold_inv (lines.take k)
    (fun l hl => hg l (List.mem_of_mem_take hl)) initState initState none Inv_init
    (by simp)
  rw [is_in_math_mode, htake]
  exact (Inv_anyMath _ _ hinv).symm

/-- Counterexample to C4 as stated: the one-line document `\(x\)` has balanced,
properly nested delimiters, yet after its single line the line-level machine of
the stripper reports math mode active (its closing test looks for the literal
three-character sequence backslash-backslash-parenthesis, so `\)` does not
close `\(`), while the character-level scanner has left math mode. -/
theorem C4_cex_inline_paren_pair_diverges :
    anyMath (List.foldl lineStep initState ["\\(x\\)".data]) = true ∧
    is_in_math_mode (joinNl ["\\(x\\)".data])
      (joinNl (["\\(x\\)".data].take 1)).length = false := by
  constructor
  · decide
  · decide

theorem C4_witness :
    anyMath (List.foldl lineStep initState
        (([beginLine "align".data, "$a$ $b$".data,
           displayLine "x".data, endLine "align".data]).take 2))
      = is_in_math_mode
          (joinNl [beginLine "align".data, "$a$ $b$".data,
                   displayLine "x".data, endLine "align".data])
          (joinNl (([beginLine "align".data, "$a$ $b$".data,
                     displayLine "x".data, endLine "align".data]).take 2)).length := by
  refine C4_scanners_agree_on_good_lines _ ?_ 2
  intro l hl
  simp only [List.mem_cons, List.not_mem_nil, or_false] at hl
  rcases hl with h | h | h | h
  · exact h ▸ GoodLine.beg "align".data (by decide)
  · exact h ▸ GoodLine.text "$a$ $b$".data (by decide)
  · exact h ▸ GoodLine.disp "x".data (by decide)
  · exact h ▸ GoodLine.fin "align".data (by decide)

end Inliner
